import Mathlib

/-!
Verification of the agent_world grid simulation.

This file shallowly embeds the core of `agent_world_core` (the grid
container of `map.rs`, the environment and action-resolution engine of
`environment.rs`, and the planning agent of `agent.rs`) as executable Lean
definitions, and proves or refutes the frozen specification claims about
them.

Embedding conventions:
* Rust `usize` values are embedded as `Nat`; the one place the source
  relies on wrap-around arithmetic (`wrapping_add_signed` in
  `process_action`) is embedded with an explicit `% 2^64`.
* `HashMap`/`HashSet` values that are only read and updated pointwise are
  embedded as association lists / functions; the one place HashMap
  iteration order is observable (`process_turn` collecting
  `agents.keys()`) takes the key order as an explicit parameter, since the
  Rust order is unspecified (hasher dependent).
* Rust's `BinaryHeap` is used by the A* implementation only as a
  min-priority queue on `priority`; it is embedded as a list with a
  minimum-extraction operation.  No claim depends on the order among
  entries of equal priority.
* Panicking grid indexing (`grid[pos]`) is embedded as a total function
  that is a no-op / `none` out of bounds; theorems about code paths that
  index the grid carry the in-bounds hypotheses the source establishes
  before indexing.
-/

namespace AgentWorld

/-- `DoorKeyType` from `lib.rs`: the color tag shared by doors and keys. -/
inductive DoorKeyType where
  | Red | Green | Blue | Yellow
deriving DecidableEq, Repr

/-- `Item` from `lib.rs`. -/
inductive Item where
  | Key (key_type : DoorKeyType)
  | Chip
  | Goal
deriving DecidableEq, Repr

/-- `Position` from `lib.rs`: unsigned 2-D coordinate. -/
structure Position where
  x : Nat
  y : Nat
deriving DecidableEq, Repr

/-- `EntityId` from `lib.rs`. -/
abbrev EntityId := Nat

/-- `CellType` from `environment.rs`. -/
inductive CellType where
  | Floor
  | Wall
  | Door (opened : Bool) (door_type : Option DoorKeyType)
deriving DecidableEq, Repr

/-- `Action` from `environment.rs`; `dx`, `dy` are Rust `isize`. -/
inductive Action where
  | Wait
  | Move (dx dy : Int)
deriving DecidableEq, Repr

/-- `ActionResult` from `environment.rs`. -/
inductive ActionResult where
  | Success
  | Failure (msg : String)
  | Win
deriving DecidableEq, Repr

/-- `AgentState` from `environment.rs`. -/
structure AgentState where
  id : EntityId
  position : Position
  inventory : List Item
deriving DecidableEq, Repr

/-- Size of the `usize` domain (64-bit platform). -/
def usizeSize : Nat := 2 ^ 64

/-- Rust `usize::wrapping_add_signed`. -/
def wrapAddSigned (x : Nat) (d : Int) : Nat :=
  (((x : Int) + d) % (usizeSize : Int)).toNat

/-- Rust `usize::checked_add_signed` (64-bit). -/
def checkedAddSigned (x : Nat) (d : Int) : Option Nat :=
  let s : Int := (x : Int) + d
  if 0 ≤ s ∧ s < (usizeSize : Int) then some s.toNat else none

/-! ## The grid container (`map.rs`) -/

/-- `Grid<T>` from `map.rs`: row-major storage in a flat vector. -/
structure Grid (T : Type) where
  width : Nat
  height : Nat
  cells : List T
deriving DecidableEq, Repr

namespace Grid

variable {T : Type}

/-- `Grid::new`: filled with default values. -/
def new (default : T) (width height : Nat) : Grid T :=
  { width := width, height := height, cells := List.replicate (width * height) default }

/-- `Grid::is_valid`. -/
def isValid (g : Grid T) (x y : Nat) : Bool :=
  x < g.width && y < g.height

/-- `Grid::coords_to_index`. -/
def coordsToIndex (g : Grid T) (x y : Nat) : Option Nat :=
  if x < g.width ∧ y < g.height then some (y * g.width + x) else none

/-- `Grid::index_to_coords`. -/
def indexToCoords (g : Grid T) (index : Nat) : Option (Nat × Nat) :=
  if index < g.cells.length then some (index % g.width, index / g.width) else none

/-- `Grid::get`. -/
def get (g : Grid T) (x y : Nat) : Option T :=
  if g.isValid x y then g.cells.get? (y * g.width + x) else none

/-- Embedding of panicking index assignment `grid[pos] = v` / writes through
`get_mut`; out of bounds it leaves the grid unchanged (the source panics
there, and every theorem that exercises a write carries the in-bounds
hypotheses the source establishes before indexing). -/
def setAt (g : Grid T) (x y : Nat) (v : T) : Grid T :=
  if x < g.width ∧ y < g.height then
    { g with cells := g.cells.set (y * g.width + x) v }
  else g

/-- Write by `Position` index. -/
def setPos (g : Grid T) (p : Position) (v : T) : Grid T :=
  g.setAt p.x p.y v

/-- Read by `Position` index (panicking in the source; `none` out of bounds
here). -/
def getPos (g : Grid T) (p : Position) : Option T :=
  g.get p.x p.y

/-- `Grid::enumerate`: `((x, y), cell)` pairs in row-major order. -/
def enumerate (g : Grid T) : List ((Nat × Nat) × T) :=
  (g.cells.enum.map fun (i, c) => ((i % g.width, i / g.width), c))

/-- Well-formedness: the flat vector has exactly `width * height` cells
(every grid built by `Grid::new`/`from_generator`/the map loader has this). -/
def WF (g : Grid T) : Prop := g.cells.length = g.width * g.height

end Grid

/-! ## The environment (`environment.rs`) -/

/-- `Environment` from `environment.rs`.  The `agents` HashMap is embedded
as a function map (only `get`/`get_mut`/`insert`/`contains_key` are used on
it pointwise; its key *iteration* in `process_turn` takes the unspecified
HashMap order as an explicit parameter there).  `agent_behaviors` is kept
outside this structure, next to `process_turn`. -/
structure Environment where
  terrain : Grid CellType
  items : Grid (Option Item)
  agent_locations : Grid (Option EntityId)
  agents : EntityId → Option AgentState
  next_entity_id : EntityId

namespace Environment

/-- Update one agent's stored state. -/
def setAgent (env : Environment) (id : EntityId) (st : AgentState) : Environment :=
  { env with agents := fun j => if j = id then some st else env.agents j }

@[simp] theorem setAgent_terrain (env : Environment) (id : EntityId) (st : AgentState) :
    (env.setAgent id st).terrain = env.terrain := rfl

@[simp] theorem setAgent_items (env : Environment) (id : EntityId) (st : AgentState) :
    (env.setAgent id st).items = env.items := rfl

@[simp] theorem setAgent_agent_locations (env : Environment) (id : EntityId)
    (st : AgentState) : (env.setAgent id st).agent_locations = env.agent_locations := rfl

@[simp] theorem setAgent_next_entity_id (env : Environment) (id : EntityId)
    (st : AgentState) : (env.setAgent id st).next_entity_id = env.next_entity_id := rfl

theorem setAgent_agents (env : Environment) (id : EntityId) (st : AgentState)
    (j : EntityId) :
    (env.setAgent id st).agents j = if j = id then some st else env.agents j := rfl

/-- `self.agent_locations[p].is_some()`: whether a cell holds an agent
(out of bounds reads as unoccupied; the source panics there and is only
called after a bounds check). -/
def isOccupied (locs : Grid (Option EntityId)) (p : Position) : Bool :=
  match locs.getPos p with
  | some (some _) => true
  | _ => false

/-- `self.items[p].is_some()`. -/
def hasItem (items : Grid (Option Item)) (p : Position) : Bool :=
  match items.getPos p with
  | some (some _) => true
  | _ => false

/-- `Environment::new`. -/
def new (width height : Nat) : Environment :=
  { terrain := Grid.new CellType.Floor width height
    items := Grid.new none width height
    agent_locations := Grid.new none width height
    agents := fun _ => none
    next_entity_id := 0 }

/-- `Environment::add_item`. -/
def addItem (env : Environment) (position : Position) (item : Item) :
    Except String Environment :=
  if ¬ env.terrain.isValid position.x position.y then
    .error "Position is out of bounds."
  else if hasItem env.items position then
    .error "Position already contains an item."
  else if isOccupied env.agent_locations position then
    .error "Position is occupied by an agent."
  else if env.terrain.getPos position = some CellType.Wall then
    .error "Cannot place item inside a Wall."
  else
    .ok { env with items := env.items.setPos position (some item) }

/-- `Environment::add_agent` (the behavior box is stored in the separate
behavior map; the `eprintln!` warning about placing an agent on an item is
I/O only). -/
def addAgent (env : Environment) (position : Position) (agent_id : EntityId)
    (initial_inventory : List Item) : Except String (EntityId × Environment) :=
  if ¬ env.terrain.isValid position.x position.y then
    .error "Position is out of bounds."
  else if isOccupied env.agent_locations position then
    .error "Position is already occupied by an agent."
  else if env.terrain.getPos position = some CellType.Wall then
    .error "Cannot place agent inside a Wall."
  else if match env.terrain.getPos position with
          | some (CellType.Door false _) => true
          | _ => false then
    .error "Cannot place agent inside a closed Door."
  else if (env.agents agent_id).isSome then
    .error "Agent ID is already in use."
  else
    .ok (agent_id,
      { env with
        agent_locations := env.agent_locations.setPos position (some agent_id)
        agents := fun j => if j = agent_id then
            some { id := agent_id, position := position, inventory := initial_inventory }
          else env.agents j
        next_entity_id := max env.next_entity_id (agent_id + 1) })

/-- Whether the inventory already holds a key of type `key`
(the `has_key` check in `process_action`'s `Item::Key` arm). -/
def holdsKey (inventory : List Item) (key : DoorKeyType) : Bool :=
  inventory.any fun i => i = Item.Key key

/-- Index of the first key of the required type
(the `key_index` computation in `process_action`'s keyed-door arm). -/
def keyIndex (inventory : List Item) (required : DoorKeyType) : Option Nat :=
  inventory.findIdx? fun item => item = Item.Key required

/-- Step 3 of `Environment::process_action` (`// Check target cell terrain
and handle interactions (doors)` onward), factored out: resolve the terrain
at the target on the post-pickup environment and agent state. -/
def resolveTerrain (env : Environment) (agent_id : EntityId)
    (agent_state : AgentState) (current_pos target_pos : Position) :
    ActionResult × Environment :=
  match env.terrain.get target_pos.x target_pos.y with
  | some CellType.Wall =>
    (.Failure "Cannot move into a wall.", env)
  | some (CellType.Door true _) =>
    if isOccupied env.agent_locations target_pos then
      (.Failure "Target position is occupied by another agent.", env)
    else
      (.Success,
       { env.setAgent agent_id { agent_state with position := target_pos } with
         agent_locations := (env.agent_locations.setPos current_pos none).setPos
           target_pos (some agent_id) })
  | some (CellType.Door false none) =>
    if isOccupied env.agent_locations target_pos then
      (.Failure "Target position is occupied by another agent.", env)
    else
      let env := { env with
        terrain := env.terrain.setAt target_pos.x target_pos.y (CellType.Door true none) }
      (.Success,
       { env.setAgent agent_id { agent_state with position := target_pos } with
         agent_locations := (env.agent_locations.setPos current_pos none).setPos
           target_pos (some agent_id) })
  | some (CellType.Door false (some required_type)) =>
    if isOccupied env.agent_locations target_pos then
      (.Failure "Target position is occupied by another agent.", env)
    else
      match keyIndex agent_state.inventory required_type with
      | some index =>
        let agent_state :=
          { agent_state with inventory := agent_state.inventory.eraseIdx index }
        let env := { env with
          terrain := env.terrain.setAt target_pos.x target_pos.y
            (CellType.Door true (some required_type)) }
        (.Success,
         { env.setAgent agent_id { agent_state with position := target_pos } with
           agent_locations := (env.agent_locations.setPos current_pos none).setPos
             target_pos (some agent_id) })
      | none =>
        (.Failure "Agent lacks the required key type.", env)
  | some CellType.Floor =>
    if isOccupied env.agent_locations target_pos then
      (.Failure "Target position is occupied by another agent.", env)
    else
      (.Success,
       { env.setAgent agent_id { agent_state with position := target_pos } with
         agent_locations := (env.agent_locations.setPos current_pos none).setPos
           target_pos (some agent_id) })
  | none =>
    (.Failure "Target cell not found (internal error).", env)

/-- `Environment::process_action`: the sole per-decision mutator.
Returns the `ActionResult` together with the mutated environment. -/
def processAction (env : Environment) (agent_id : EntityId) (action : Action) :
    ActionResult × Environment :=
  match env.agents agent_id with
  | none => (.Failure "Agent not found.", env)
  | some agent_state =>
    match action with
    | .Wait => (.Success, env)
    | .Move dx dy =>
      let current_pos := agent_state.position
      let target_x := wrapAddSigned current_pos.x dx
      let target_y := wrapAddSigned current_pos.y dy
      if ¬ env.terrain.isValid target_x target_y then
        (.Failure "Target position is out of bounds.", env)
      else
        let target_pos : Position := { x := target_x, y := target_y }
        -- Step 2: check the target cell for items.
        match (env.items.get target_x target_y).join with
        | some Item.Goal =>
          -- Goal found: move there and end the game, no terrain/occupancy check.
          let locs := (env.agent_locations.setPos current_pos none).setPos
            target_pos (some agent_id)
          (.Win, (env.setAgent agent_id { agent_state with position := target_pos })
            |> fun e => { e with agent_locations := locs })
        | other =>
          -- Chip/Key pickup mutates inventory and the item grid, then falls
          -- through to the terrain check.
          let (agent_state, env) :=
            match other with
            | some Item.Chip =>
              ({ agent_state with inventory := agent_state.inventory ++ [Item.Chip] },
               { env with items := env.items.setPos target_pos none })
            | some (Item.Key k) =>
              if holdsKey agent_state.inventory k then (agent_state, env)
              else
                ({ agent_state with inventory := agent_state.inventory ++ [Item.Key k] },
                 { env with items := env.items.setPos target_pos none })
            | _ => (agent_state, env)
          -- Step 3: resolve terrain at the target.
          resolveTerrain (env.setAgent agent_id agent_state) agent_id agent_state
            current_pos target_pos

/-- `Environment::get_door_locations`: positions of closed doors whose
`door_type` equals the filter. -/
def getDoorLocations (env : Environment) (type_filter : Option DoorKeyType) :
    List Position :=
  env.terrain.enumerate.filterMap fun ((x, y), cell) =>
    match cell with
    | CellType.Door false dt => if dt = type_filter then some ⟨x, y⟩ else none
    | _ => none

/-- `Environment::get_key_location`: first position, in row-major
enumeration order, holding a key of the requested type. -/
def getKeyLocation (env : Environment) (type_to_find : DoorKeyType) : Option Position :=
  env.items.enumerate.findSome? fun ((x, y), item_option) =>
    match item_option with
    | some (Item.Key key_type) =>
      if key_type = type_to_find then some ⟨x, y⟩ else none
    | _ => none

/-- `Environment::get_corresponding_key_location`. -/
def getCorrespondingKeyLocation (env : Environment) (door_pos : Position) :
    Option Position :=
  match env.terrain.get door_pos.x door_pos.y with
  | some (CellType.Door _ (some required_key_type)) =>
    env.getKeyLocation required_key_type
  | _ => none

end Environment

/-! ## Agents (`agent.rs`) -/

/-- `EnvironmentView` from `environment.rs`: the read-only per-decision
snapshot (borrowed references embedded as values). -/
structure EnvironmentView where
  agent_state : AgentState
  location : Position
  terrain_grid : Grid CellType
  item_grid : Grid (Option Item)
  agent_location_grid : Grid (Option EntityId)

/-- One call of `RandomWalker::get_action`, parameterized by the two values
drawn from the agent's rng (`random_range(-1..=1)` twice).  The ChaCha-based
`StdRng` itself is not embedded; all nine draw pairs in
`{-1,0,1} × {-1,0,1}` are reachable outputs of `random_range(-1..=1)`. -/
def randomWalkerAct (dx dy : Int) : Action :=
  if dx = 0 ∧ dy = 0 then Action.Wait else Action.Move dx dy

namespace PlanningAgent

/-- `PlanningAgent::manhattan_distance`. -/
def manhattanDistance (a b : Position) : Nat :=
  (if a.x > b.x then a.x - b.x else b.x - a.x) +
  (if a.y > b.y then a.y - b.y else b.y - a.y)

/-- `PlanningAgent::position_to_action` (the non-adjacent fallthrough prints
a diagnostic and degrades to `Wait`). -/
def positionToAction (src dst : Position) : Action :=
  let dx : Int := (dst.x : Int) - (src.x : Int)
  let dy : Int := (dst.y : Int) - (src.y : Int)
  if dx = 0 ∧ dy = 0 then Action.Wait
  else if dx = 0 ∧ dy = 1 then Action.Move 0 1
  else if dx = 0 ∧ dy = -1 then Action.Move 0 (-1)
  else if dx = 1 ∧ dy = 0 then Action.Move 1 0
  else if dx = -1 ∧ dy = 0 then Action.Move (-1) 0
  else Action.Wait

/-- The `directions` array of `get_valid_neighbors`. -/
def directions : List (Int × Int) := [(0, 1), (0, -1), (1, 0), (-1, 0)]

/-- `PlanningAgent::get_valid_neighbors`.  `keys_held` is the HashSet of
held key types, embedded as a list queried by membership only. -/
def getValidNeighbors (position : Position) (view : EnvironmentView)
    (keys_held : List DoorKeyType) : List Position :=
  directions.filterMap fun (dx, dy) =>
    match checkedAddSigned position.x dx, checkedAddSigned position.y dy with
    | some nx, some ny =>
      if ¬ view.terrain_grid.isValid nx ny then none
      else if (view.agent_location_grid.get nx ny).join.isSome then none
      else
        match view.terrain_grid.get nx ny with
        | some CellType.Wall => none
        | some (CellType.Door false (some required_key)) =>
          if required_key ∈ keys_held then some ⟨nx, ny⟩ else none
        | some (CellType.Door false none) => some ⟨nx, ny⟩
        | some (CellType.Door true _) => some ⟨nx, ny⟩
        | some CellType.Floor => some ⟨nx, ny⟩
        | none => none
    | _, _ => none

/-- The `PrioritizedItem` struct local to `a_star_path`. -/
structure PrioritizedItem where
  priority : Nat
  position : Position
deriving DecidableEq, Repr

/-- Extraction of a minimum-priority element, the embedding of
`BinaryHeap::pop` under the reversed `Ord` on `priority`.  The element
chosen among equal priorities is unspecified in the source API; no claim
below depends on that choice. -/
def popMin : List PrioritizedItem → Option (PrioritizedItem × List PrioritizedItem)
  | [] => none
  | e :: rest =>
    match popMin rest with
    | none => some (e, [])
    | some (m, rest2) =>
      if e.priority ≤ m.priority then some (e, rest) else some (m, e :: rest2)

/-- HashMap lookup on an association list keyed by `Position`. -/
def lookupA {β : Type} (l : List (Position × β)) (k : Position) : Option β :=
  (l.find? fun e => e.1 == k).map (·.2)

/-- HashMap insert (overwrite) on an association list keyed by `Position`. -/
def insertA {β : Type} (l : List (Position × β)) (k : Position) (v : β) :
    List (Position × β) :=
  (k, v) :: l.filter fun e => e.1 != k

/-- The mutable state of `a_star_path`'s search loop. -/
structure AStarState where
  frontier : List PrioritizedItem
  came_from : List (Position × Position)
  cost_so_far : List (Position × Nat)

/-- `usize::MAX`. -/
def usizeMax : Nat := usizeSize - 1

/-- The body of `for neighbor in valid_neighbors { ... }` inside the A*
loop: one relaxation.  `cost_so_far.get(&current).unwrap_or(&usize::MAX)`
is embedded by `getD usizeMax`; the `current` key is always present when
the loop runs (proved below), so the default branch is dead. -/
def relaxNeighbor (goal current : Position) (st : AStarState)
    (neighbor : Position) : AStarState :=
  let new_cost := (lookupA st.cost_so_far current).getD usizeMax + 1
  let proceed :=
    match lookupA st.cost_so_far neighbor with
    | none => true
    | some c => new_cost < c
  if proceed then
    { frontier :=
        { priority := new_cost + manhattanDistance neighbor goal,
          position := neighbor } :: st.frontier
      came_from := insertA st.came_from neighbor current
      cost_so_far := insertA st.cost_so_far neighbor new_cost }
  else st

/-- Outcome of the `while let Some(...) = frontier.pop()` loop. -/
inductive LoopOutcome where
  | reached (st : AStarState)
  | exhausted
  | fuelOut

/-- The A* search loop of `a_star_path`, with explicit fuel.  The wrapper
`aStarPath` passes fuel exceeding the loop's proved iteration bound, so the
`fuelOut` branch is unreachable there. -/
def aStarLoop (view : EnvironmentView) (keys_held : List DoorKeyType)
    (goal : Position) : Nat → AStarState → LoopOutcome
  | 0, _ => .fuelOut
  | fuel + 1, st =>
    match popMin st.frontier with
    | none => .exhausted
    | some (e, rest) =>
      if e.position = goal then .reached { st with frontier := rest }
      else
        let ns := getValidNeighbors e.position view keys_held
        aStarLoop view keys_held goal fuel
          (ns.foldl (relaxNeighbor goal e.position) { st with frontier := rest })

/-- The path-reconstruction loop of `a_star_path` (`while current != start`),
with explicit fuel; parent chains are proved acyclic below, so the fuel
passed by `aStarPath` always suffices. -/
def reconstructPath (came_from : List (Position × Position)) (start : Position) :
    Nat → Position → List Position → Option (List Position)
  | 0, _, _ => none
  | fuel + 1, current, path =>
    if current = start then some path.reverse
    else
      match lookupA came_from current with
      | none => none
      | some c => reconstructPath came_from start fuel c (path ++ [c])

/-- `PlanningAgent::a_star_path`. -/
def aStarPath (start goal : Position) (view : EnvironmentView)
    (keys_held : List DoorKeyType) : Option (List Position) :=
  let cells := view.terrain_grid.width * view.terrain_grid.height
  let st0 : AStarState :=
    { frontier := [{ priority := 0, position := start }]
      came_from := []
      cost_so_far := [(start, 0)] }
  match aStarLoop view keys_held goal (5 * cells * cells + 2) st0 with
  | .reached st => reconstructPath st.came_from start (cells + 2) goal [goal]
  | _ => none

/-- `PlanningAgent::get_keys_held` (HashSet embedded as a duplicate-free
list; only membership is queried). -/
def getKeysHeld (view : EnvironmentView) : List DoorKeyType :=
  view.agent_state.inventory.foldl
    (fun ks i =>
      match i with
      | Item.Key k => if k ∈ ks then ks else ks ++ [k]
      | _ => ks) []

/-- `PlanningAgent::find_chips`. -/
def findChips (view : EnvironmentView) : List Position :=
  view.item_grid.enumerate.filterMap fun ((x, y), it) =>
    if it = some Item.Chip then some ⟨x, y⟩ else none

/-- `PlanningAgent::find_goals`. -/
def findGoals (view : EnvironmentView) : List Position :=
  view.item_grid.enumerate.filterMap fun ((x, y), it) =>
    if it = some Item.Goal then some ⟨x, y⟩ else none

/-- `PlanningAgent::find_keys`, as the per-type position lists. -/
def findKeys (view : EnvironmentView) (k : DoorKeyType) : List Position :=
  view.item_grid.enumerate.filterMap fun ((x, y), it) =>
    if it = some (Item.Key k) then some ⟨x, y⟩ else none

/-- All four key colors.  `plan_to_nearest_reachable_key` iterates its
`HashMap<DoorKeyType, Vec<Position>>` in unspecified HashMap order; this
fixed enumeration stands for that order (no claim depends on it). -/
def allKeyTypes : List DoorKeyType :=
  [DoorKeyType.Red, DoorKeyType.Green, DoorKeyType.Blue, DoorKeyType.Yellow]

/-- `PlanningAgent::plan_to_nearest_target`: keeps the first plan of
strictly smallest length, starting from `min_length = usize::MAX`. -/
def planToNearestTarget (start : Position) (targets : List Position)
    (view : EnvironmentView) (keys_held : List DoorKeyType) :
    Option (List Position) :=
  (targets.foldl
    (fun (acc : Option (List Position) × Nat) target =>
      match aStarPath start target view keys_held with
      | some plan =>
        if plan.length < acc.2 then (some plan, plan.length) else acc
      | none => acc)
    (none, usizeMax)).1

/-- `PlanningAgent::plan_to_nearest_reachable_key`. -/
def planToNearestReachableKey (start : Position) (view : EnvironmentView)
    (keys_held : List DoorKeyType) : Option (List Position) :=
  (allKeyTypes.foldl
    (fun (acc : Option (List Position) × Nat) key_type =>
      if key_type ∈ keys_held then acc
      else
        (findKeys view key_type).foldl
          (fun acc key_pos =>
            match aStarPath start key_pos view keys_held with
            | some plan =>
              if plan.length < acc.2 then (some plan, plan.length) else acc
            | none => acc)
          acc)
    (none, usizeMax)).1

/-- `PlanningAgent::get_action` (`impl Agent for PlanningAgent`): returns
the action together with the updated `current_plan` queue. -/
def getAction (current_plan : List Position) (view : EnvironmentView) :
    Action × List Position :=
  let current_pos := view.location
  let keys_held := getKeysHeld view
  match current_plan with
  | next :: rest => (positionToAction current_pos next, rest)
  | [] =>
    let keyFallback : Action × List Position :=
      match planToNearestReachableKey current_pos view keys_held with
      | some key_plan =>
        if 1 < key_plan.length then
          match key_plan.drop 1 with
          | next :: rest => (positionToAction current_pos next, rest)
          | [] => (Action.Wait, [])
        else (Action.Wait, [])
      | none => (Action.Wait, [])
    let chips := findChips view
    let primary : Option (List Position) :=
      if chips ≠ [] then planToNearestTarget current_pos chips view keys_held
      else planToNearestTarget current_pos (findGoals view) view keys_held
    match primary with
    | some p =>
      if 1 < p.length then
        match p.drop 1 with
        | next :: rest => (positionToAction current_pos next, rest)
        | [] => (Action.Wait, [])
      else keyFallback
    | none => keyFallback

end PlanningAgent

/-- The closed set of behaviors shipped with the system, with their mutable
decision state (`StdRng` stream modelled as the list of value pairs it will
draw; the plan queue as a list). -/
inductive AgentImpl where
  | randomWalker (draws : List (Int × Int))
  | planningAgent (current_plan : List Position)
deriving DecidableEq, Repr

/-- One `get_action` call on a shipped behavior. -/
def agentStep (a : AgentImpl) (view : EnvironmentView) : Action × AgentImpl :=
  match a with
  | .randomWalker draws =>
    match draws with
    | (dx, dy) :: rest => (randomWalkerAct dx dy, .randomWalker rest)
    | [] => (randomWalkerAct 0 0, .randomWalker [])
  | .planningAgent plan =>
    let (action, plan2) := PlanningAgent.getAction plan view
    (action, .planningAgent plan2)

/-- `Environment::process_turn`.  `agent_ids` stands for
`self.agents.keys().cloned().collect()`: the keys of a `HashMap` in its
iteration order, which Rust leaves unspecified (hasher dependent), so it is
taken as an explicit parameter here. -/
def processTurn (env : Environment) (behaviors : EntityId → Option AgentImpl) :
    List EntityId → ActionResult × Environment × (EntityId → Option AgentImpl)
  | [] => (.Success, env, behaviors)
  | agent_id :: rest =>
    match env.agents agent_id with
    | none => processTurn env behaviors rest
    | some agent_state =>
      match behaviors agent_id with
      | none => processTurn env behaviors rest
      | some behavior =>
        let view : EnvironmentView :=
          { agent_state := agent_state
            location := agent_state.position
            terrain_grid := env.terrain
            item_grid := env.items
            agent_location_grid := env.agent_locations }
        let (action, behavior2) := agentStep behavior view
        let behaviors2 : EntityId → Option AgentImpl :=
          fun j => if j = agent_id then some behavior2 else behaviors j
        match env.processAction agent_id action with
        | (ActionResult.Win, env2) => (.Win, env2, behaviors2)
        | (_, env2) => processTurn env2 behaviors2 rest

/-! ## Definitions used by the claim statements -/

namespace Environment

/-- The occupancy invariant of the data model, on a location grid and an
agent map: every registered agent's cell holds exactly its id, that cell is
the only one holding the id, and every occupied cell belongs to a
registered agent standing there. -/
def OccInvOn (locs : Grid (Option EntityId)) (agents : EntityId → Option AgentState) :
    Prop :=
  (∀ id st, agents id = some st →
    locs.getPos st.position = some (some id) ∧
    ∀ p, locs.getPos p = some (some id) → p = st.position) ∧
  (∀ p j, locs.getPos p = some (some j) →
    ∃ st, agents j = some st ∧ st.position = p)

/-- The occupancy invariant of an environment. -/
def OccInv (env : Environment) : Prop :=
  OccInvOn env.agent_locations env.agents

end Environment

namespace PlanningAgent

/-- One step of the neighbor relation A* searches over. -/
def ValidStep (view : EnvironmentView) (keys_held : List DoorKeyType)
    (a b : Position) : Prop :=
  b ∈ getValidNeighbors a view keys_held

/-- Reachability through valid-neighbor steps: there is a route from `a` to
`b` that never crosses a wall, an occupied cell, or a closed door whose
required key is not in `keys_held`. -/
def Reach (view : EnvironmentView) (keys_held : List DoorKeyType)
    (a b : Position) : Prop :=
  Relation.ReflTransGen (ValidStep view keys_held) a b

/-- All `came_from` entries of an A* state record valid-neighbor steps. -/
def CameFromValid (view : EnvironmentView) (keys_held : List DoorKeyType)
    (cf : List (Position × Position)) : Prop :=
  ∀ p c, lookupA cf p = some c → ValidStep view keys_held c p

/-- All positions of a `w × h` grid, in row-major order. -/
def gridPositions (w h : Nat) : List Position :=
  (List.range (w * h)).map fun i => ⟨i % w, i / w⟩

/-- One coordinate of the canonical geodesic: walk from `sx` toward `gx`,
one unit per step, stopping on arrival. -/
def geoX (sx gx i : Nat) : Nat :=
  if sx ≤ gx then min (sx + i) gx else sx - min i (sx - gx)

/-- The canonical geodesic from `s` to `g`: walk the x-difference first,
then the y-difference.  `geo s g i` is the point after `i` steps. -/
def geo (s g : Position) (i : Nat) : Position :=
  ⟨geoX s.x g.x i,
   geoX s.y g.y (i - (if s.x ≤ g.x then g.x - s.x else s.x - g.x))⟩

/-- A view is an open grid: a well-formed all-floor terrain with no agent
anywhere on the (co-indexed) agent-location grid. -/
structure OpenGrid (view : EnvironmentView) : Prop where
  wf : view.terrain_grid.WF
  allFloor : ∀ c ∈ view.terrain_grid.cells, c = CellType.Floor
  noAgents : ∀ c ∈ view.agent_location_grid.cells, c = (none : Option EntityId)

/-- The value the termination measure assigns to one cell: its recorded
cost, or the cap when it has none. -/
def costVal (cost : List (Position × Nat)) (cap : Nat) (p : Position) : Nat :=
  (lookupA cost p).getD cap

/-- The loop measure: it strictly decreases at every iteration of the A*
search loop (pops shrink the frontier; every push is paid for by a strict
cost improvement). -/
def stateMeasure (w h : Nat) (st : AStarState) : Nat :=
  5 * ((gridPositions w h).map (costVal st.cost_so_far (w * h))).sum +
    st.frontier.length

/-- The part of the `a_star_path` search-loop invariant that survives
popping the frontier: everything about `cost_so_far` and `came_from`,
plus per-entry facts about the remaining frontier. -/
structure PreAStarInv (view : EnvironmentView) (keys : List DoorKeyType)
    (start goal : Position) (st : AStarState) : Prop where
  cost_start : lookupA st.cost_so_far start = some 0
  cost_lb : ∀ p v, lookupA st.cost_so_far p = some v →
    manhattanDistance start p ≤ v
  cost_inbounds : ∀ p v, lookupA st.cost_so_far p = some v →
    p.x < view.terrain_grid.width ∧ p.y < view.terrain_grid.height
  keys_nodup : (st.cost_so_far.map (fun e => e.1)).Nodup
  cost_bound : ∀ p v, lookupA st.cost_so_far p = some v →
    v + 1 ≤ st.cost_so_far.length
  frontier_cost : ∀ e ∈ st.frontier, (lookupA st.cost_so_far e.position).isSome
  goal_entries : ∀ e ∈ st.frontier, e.position = goal →
    ∃ v, lookupA st.cost_so_far goal = some v ∧ v ≤ e.priority
  cf_edge : ∀ p c, lookupA st.came_from p = some c →
    ∃ vp vc, lookupA st.cost_so_far p = some vp ∧
      lookupA st.cost_so_far c = some vc ∧ vc + 1 ≤ vp ∧
      manhattanDistance c p = 1
  cf_exists : ∀ p v, lookupA st.cost_so_far p = some v → p ≠ start →
    (lookupA st.came_from p).isSome

/-- The full search-loop invariant of `a_star_path` on an open grid, for a
fixed `view`, key set, `start` and `goal`.  `d` abbreviates
`manhattanDistance start goal`.  The extra field (`inv8`) is the key
optimality invariant: for every geodesic node already holding its exact
cost, either a frontier entry for it with priority at most `d` is still
pending, or the next geodesic node already holds its exact cost. -/
structure AStarInv (view : EnvironmentView) (keys : List DoorKeyType)
    (start goal : Position) (st : AStarState)
    extends PreAStarInv view keys start goal st : Prop where
  inv8 : ∀ i, i ≤ manhattanDistance start goal →
    lookupA st.cost_so_far (geo start goal i) = some i →
    (∃ e ∈ st.frontier, e.position = geo start goal i ∧
      e.priority ≤ manhattanDistance start goal) ∨
    (i < manhattanDistance start goal ∧
      lookupA st.cost_so_far (geo start goal (i + 1)) = some (i + 1))

end PlanningAgent

/-! ## Concrete worlds used by counterexamples and witnesses -/

namespace Examples

/-- A minimal view; `RandomWalker::get_action` ignores its view entirely. -/
def trivialView : EnvironmentView :=
  { agent_state := { id := 0, position := ⟨0, 0⟩, inventory := [] }
    location := ⟨0, 0⟩
    terrain_grid := Grid.new CellType.Floor 1 1
    item_grid := Grid.new none 1 1
    agent_location_grid := Grid.new none 1 1 }

/-- A 3×1 all-floor world with planning agents 0 at (0,0) and 1 at (2,0)
and a single Chip between them at (1,0): whichever agent acts first
collects the chip, so the turn order is observable in the final state. -/
def chipRace : Environment :=
  { terrain := Grid.new CellType.Floor 3 1
    items := { width := 3, height := 1, cells := [none, some Item.Chip, none] }
    agent_locations := { width := 3, height := 1, cells := [some 0, none, some 1] }
    agents := fun j =>
      if j = 0 then some { id := 0, position := ⟨0, 0⟩, inventory := [] }
      else if j = 1 then some { id := 1, position := ⟨2, 0⟩, inventory := [] }
      else none
    next_entity_id := 2 }

/-- Both contenders in `chipRace` run the planning behavior with an empty
plan queue. -/
def chipRaceBehaviors : EntityId → Option AgentImpl :=
  fun j => if j ≤ 1 then some (AgentImpl.planningAgent []) else none

/-- A 3×1 world with a closed Red door at (2,0) and two Red keys on the
ground: one at (0,0) (first in row-major enumeration order) and one at
(1,0) (strictly nearer to the door). -/
def twoRedKeys : Environment :=
  { terrain := { width := 3, height := 1, cells := [CellType.Floor, CellType.Floor, CellType.Door false (some DoorKeyType.Red)] }
    items := { width := 3, height := 1, cells := [some (Item.Key DoorKeyType.Red), some (Item.Key DoorKeyType.Red), none] }
    agent_locations := Grid.new none 3 1
    agents := fun _ => none
    next_entity_id := 0 }

/-- A 2×1 world in which agent 1 stands on the Goal cell (1,0) — a state
the construction API permits (`add_item` then `add_agent` on an item cell
only warns) — while agent 0 at (0,0) is about to move onto it. -/
def goalOverwrite : Environment :=
  { terrain := Grid.new CellType.Floor 2 1
    items := { width := 2, height := 1, cells := [none, some Item.Goal] }
    agent_locations := { width := 2, height := 1, cells := [some 0, some 1] }
    agents := fun j =>
      if j = 0 then some { id := 0, position := ⟨0, 0⟩, inventory := [] }
      else if j = 1 then some { id := 1, position := ⟨1, 0⟩, inventory := [] }
      else none
    next_entity_id := 2 }

/-- A 3×1 view whose middle cell is a closed Red door: with no keys held,
the goal cell (2,0) is unreachable from (0,0). -/
def lockedView : EnvironmentView :=
  { agent_state := { id := 0, position := ⟨0, 0⟩, inventory := [] }
    location := ⟨0, 0⟩
    terrain_grid := { width := 3, height := 1, cells := [CellType.Floor, CellType.Door false (some DoorKeyType.Red), CellType.Floor] }
    item_grid := Grid.new none 3 1
    agent_location_grid := Grid.new none 3 1 }

/-- A 2×2 all-floor, agent-free view: the smallest open grid on which the
A* optimality claim exercises both a horizontal and a vertical step. -/
def openView : EnvironmentView :=
  { agent_state := { id := 0, position := ⟨0, 0⟩, inventory := [] }
    location := ⟨0, 0⟩
    terrain_grid := Grid.new CellType.Floor 2 2
    item_grid := Grid.new none 2 2
    agent_location_grid := Grid.new none 2 2 }

/-- A 2×1 all-floor world with a single agent 0 at (0,0). -/
def straightMove : Environment :=
  { terrain := Grid.new CellType.Floor 2 1
    items := Grid.new none 2 1
    agent_locations := { width := 2, height := 1, cells := [some 0, none] }
    agents := fun j => if j = 0 then
        some { id := 0, position := ⟨0, 0⟩, inventory := [] } else none
    next_entity_id := 1 }

end Examples

/-! ## Grid lemmas -/

namespace Grid

variable {T : Type}

theorem wf_new (default : T) (w h : Nat) : (Grid.new default w h).WF := by
  simp [Grid.new, WF]

theorem isValid_iff {g : Grid T} {x y : Nat} :
    g.isValid x y = true ↔ x < g.width ∧ y < g.height := by
  simp [isValid]

theorem index_lt_length {g : Grid T} (hwf : g.WF) {x y : Nat}
    (hx : x < g.width) (hy : y < g.height) : y * g.width + x < g.cells.length := by
  rw [hwf]
  calc y * g.width + x < y * g.width + g.width := by omega
    _ = (y + 1) * g.width := by ring
    _ ≤ g.height * g.width := Nat.mul_le_mul_right _ (by omega)
    _ = g.width * g.height := Nat.mul_comm _ _

theorem setAt_width (g : Grid T) (x y : Nat) (v : T) :
    (g.setAt x y v).width = g.width := by
  unfold setAt; split <;> rfl

theorem setAt_height (g : Grid T) (x y : Nat) (v : T) :
    (g.setAt x y v).height = g.height := by
  unfold setAt; split <;> rfl

theorem setAt_wf {g : Grid T} (hwf : g.WF) (x y : Nat) (v : T) :
    (g.setAt x y v).WF := by
  unfold WF setAt at *
  split <;> simp [hwf]

theorem isValid_eq_decide (g : Grid T) (x y : Nat) :
    g.isValid x y = decide (x < g.width ∧ y < g.height) := by
  unfold isValid
  by_cases hx : x < g.width <;> by_cases hy : y < g.height <;> simp [hx, hy]

theorem get_eq (g : Grid T) (x y : Nat) :
    g.get x y =
      if x < g.width ∧ y < g.height then g.cells.get? (y * g.width + x) else none := by
  unfold get
  rw [isValid_eq_decide]
  by_cases h : x < g.width ∧ y < g.height <;> simp [h]

theorem cells_setAt (g : Grid T) {x y : Nat} (hx : x < g.width) (hy : y < g.height)
    (v : T) : (g.setAt x y v).cells = g.cells.set (y * g.width + x) v := by
  unfold setAt
  rw [if_pos ⟨hx, hy⟩]

/-- Distinct in-range coordinates have distinct row-major indices. -/
theorem index_inj {w : Nat} {x y x' y' : Nat} (hx : x < w) (hx' : x' < w)
    (h : ¬(x' = x ∧ y' = y)) : y * w + x ≠ y' * w + x' := by
  intro heq
  have e1 : (y * w + x) % w = x := by
    rw [Nat.mul_comm, Nat.mul_add_mod, Nat.mod_eq_of_lt hx]
  have e2 : (y' * w + x') % w = x' := by
    rw [Nat.mul_comm, Nat.mul_add_mod, Nat.mod_eq_of_lt hx']
  have hxx : x = x' := by rw [← e1, ← e2, heq]
  have hyy : y = y' := by
    have hw : 0 < w := by omega
    have : y * w = y' * w := by omega
    exact Nat.eq_of_mul_eq_mul_right hw this
  exact h ⟨hxx.symm, hyy.symm⟩

theorem get_setAt_same {g : Grid T} (hwf : g.WF) {x y : Nat}
    (hx : x < g.width) (hy : y < g.height) (v : T) :
    (g.setAt x y v).get x y = some v := by
  have hidx := index_lt_length hwf hx hy
  rw [get_eq]
  rw [setAt_width, setAt_height, if_pos ⟨hx, hy⟩, cells_setAt g hx hy]
  simp only [List.get?_eq_getElem?]
  exact List.getElem?_set_eq_of_lt v hidx

theorem get_setAt_ne (g : Grid T) {x y x' y' : Nat} (h : ¬(x' = x ∧ y' = y))
    (v : T) : (g.setAt x y v).get x' y' = g.get x' y' := by
  unfold setAt
  split
  · rename_i hin
    rw [get_eq, get_eq]
    simp only []
    by_cases hv : x' < g.width ∧ y' < g.height
    · rw [if_pos hv, if_pos hv]
      have hne : y * g.width + x ≠ y' * g.width + x' :=
        index_inj hin.1 hv.1 h
      simp only [List.get?_eq_getElem?]
      exact List.getElem?_set_ne hne
    · rw [if_neg hv, if_neg hv]
  · rfl

theorem setPos_width (g : Grid T) (p : Position) (v : T) :
    (g.setPos p v).width = g.width := setAt_width ..

theorem setPos_height (g : Grid T) (p : Position) (v : T) :
    (g.setPos p v).height = g.height := setAt_height ..

theorem setPos_wf {g : Grid T} (hwf : g.WF) (p : Position) (v : T) :
    (g.setPos p v).WF := setAt_wf hwf ..

theorem getPos_setPos_same {g : Grid T} (hwf : g.WF) {p : Position}
    (hx : p.x < g.width) (hy : p.y < g.height) (v : T) :
    (g.setPos p v).getPos p = some v := get_setAt_same hwf hx hy v

theorem getPos_setPos_ne (g : Grid T) {p q : Position} (h : q ≠ p) (v : T) :
    (g.setPos p v).getPos q = g.getPos q := by
  apply get_setAt_ne
  intro hc
  exact h (by cases q; cases p; simp_all)

theorem get_isSome_iff {g : Grid T} (hwf : g.WF) {x y : Nat} :
    (g.get x y).isSome ↔ x < g.width ∧ y < g.height := by
  rw [get_eq]
  by_cases h : x < g.width ∧ y < g.height
  · have := index_lt_length hwf h.1 h.2
    simp only [List.get?_eq_getElem?]
    simp [h, List.getElem?_eq_getElem this]
  · simp [h]

theorem getPos_isSome_iff {g : Grid T} (hwf : g.WF) {p : Position} :
    (g.getPos p).isSome ↔ p.x < g.width ∧ p.y < g.height := get_isSome_iff hwf

theorem getPos_some_bounds {g : Grid T} {p : Position} {v : T}
    (h : g.getPos p = some v) : p.x < g.width ∧ p.y < g.height := by
  rw [Grid.getPos, Grid.get_eq] at h
  by_cases hb : p.x < g.width ∧ p.y < g.height
  · exact hb
  · rw [if_neg hb] at h
    cases h

theorem get_mem {g : Grid T} {x y : Nat} {c : T} (h : g.get x y = some c) :
    c ∈ g.cells := by
  rw [get_eq] at h
  split_ifs at h
  exact List.get?_mem h

end Grid

/-! ## List helper lemmas -/

theorem findIdx?_offset_extract {α : Type} (p : α → Bool) (l : List α) :
    ∀ (i j : Nat), List.findIdx? p l i = some j →
      i ≤ j ∧ ∃ el, l.get? (j - i) = some el ∧ p el = true := by
  induction l with
  | nil => intro i j h; simp [List.findIdx?] at h
  | cons x xs ih =>
    intro i j h
    rw [List.findIdx?_cons] at h
    by_cases hx : p x = true
    · rw [if_pos hx] at h
      cases h
      exact ⟨Nat.le_refl _, x, by simp, hx⟩
    · rw [if_neg hx] at h
      obtain ⟨hij, el, hel, hp⟩ := ih (i + 1) j h
      refine ⟨by omega, el, ?_, hp⟩
      have : j - i = (j - (i + 1)) + 1 := by omega
      rw [this]
      simpa using hel

theorem findIdx?_extract {α : Type} {p : α → Bool} {l : List α} {j : Nat}
    (h : List.findIdx? p l = some j) : ∃ el, l.get? j = some el ∧ p el = true := by
  have := findIdx?_offset_extract p l 0 j h
  simpa using this.2

theorem count_eraseIdx_of_get? {l : List Item} :
    ∀ {i : Nat} {a : Item}, l.get? i = some a →
      (l.eraseIdx i).count a + 1 = l.count a := by
  induction l with
  | nil => intro i a h; simp at h
  | cons x xs ih =>
    intro i a h
    cases i with
    | zero =>
      simp at h
      subst h
      simp [List.count_cons]
    | succ n =>
      simp at h
      have := ih (show xs.get? n = some a by simpa using h)
      simp [List.count_cons, List.eraseIdx]
      omega

/-- The element found by `keyIndex` really is a key of the requested type. -/
theorem keyIndex_get {inv : List Item} {k : DoorKeyType} {i : Nat}
    (h : Environment.keyIndex inv k = some i) : inv.get? i = some (Item.Key k) := by
  obtain ⟨el, hel, hp⟩ := findIdx?_extract h
  have : el = Item.Key k := by simpa using hp
  rwa [this] at hel

/-! ## Claim C3: item pickup is not rolled back when the terrain check fails -/

namespace Claims

open Environment

/-- **C3.** For every agent whose Move targets an in-bounds Wall cell holding
a Chip (or a Key of a color the agent does not hold), `process_action`
returns the "cannot move into a wall" Failure, yet the item has been
appended to the agent's inventory and removed from the item grid, while the
agent's position field, the occupancy grid and the terrain are unchanged. -/
theorem C3_pickup_survives_wall_failure
    (env : Environment) (id : EntityId) (st : AgentState) (dx dy : Int)
    (item : Item) (tx ty : Nat)
    (htx : tx = wrapAddSigned st.position.x dx)
    (hty : ty = wrapAddSigned st.position.y dy)
    (hag : env.agents id = some st)
    (hvalid : env.terrain.isValid tx ty = true)
    (hwall : env.terrain.get tx ty = some CellType.Wall)
    (hitem : (env.items.get tx ty).join = some item)
    (hpick : item = Item.Chip ∨
      ∃ k, item = Item.Key k ∧ holdsKey st.inventory k = false) :
    (env.processAction id (.Move dx dy)).1 = .Failure "Cannot move into a wall." ∧
    (env.processAction id (.Move dx dy)).2.agents id =
      some { st with inventory := st.inventory ++ [item] } ∧
    (env.processAction id (.Move dx dy)).2.items =
      env.items.setPos ⟨tx, ty⟩ none ∧
    (env.processAction id (.Move dx dy)).2.agent_locations = env.agent_locations ∧
    (env.processAction id (.Move dx dy)).2.terrain = env.terrain := by
  subst htx hty
  rcases hpick with hchip | ⟨k, hk, hnokey⟩
  · subst hchip
    simp only [processAction, resolveTerrain, hag, hvalid, not_true, if_false, hitem,
      setAgent_terrain, setAgent_items, setAgent_agent_locations]
    rw [hwall]
    simp [setAgent]
  · subst hk
    simp only [processAction, resolveTerrain, hag, hvalid, not_true, if_false, hitem, hnokey,
      Bool.false_eq_true, setAgent_terrain, setAgent_items,
      setAgent_agent_locations]
    rw [hwall]
    simp [setAgent, hnokey]

/-- Witness for C3 at a concrete input: a 2×1 world, agent 0 at (0,0), a
Wall holding a Chip at (1,0); moving right fails but collects the chip. -/
theorem C3_pickup_survives_wall_failure_witness :
    (let env : Environment :=
      { terrain := { width := 2, height := 1, cells := [CellType.Floor, CellType.Wall] }
        items := { width := 2, height := 1, cells := [none, some Item.Chip] }
        agent_locations := { width := 2, height := 1, cells := [some 0, none] }
        agents := fun j => if j = 0 then
            some { id := 0, position := ⟨0, 0⟩, inventory := [] } else none
        next_entity_id := 1 };
     (env.processAction 0 (.Move 1 0)).1 = .Failure "Cannot move into a wall." ∧
     (env.processAction 0 (.Move 1 0)).2.agents 0 =
       some { id := 0, position := ⟨0, 0⟩, inventory := [Item.Chip] } ∧
     (env.processAction 0 (.Move 1 0)).2.items =
       Grid.setPos { width := 2, height := 1, cells := [none, some Item.Chip] }
         ⟨1, 0⟩ none ∧
     (env.processAction 0 (.Move 1 0)).2.agent_locations =
       { width := 2, height := 1, cells := [some 0, none] } ∧
     (env.processAction 0 (.Move 1 0)).2.terrain =
       { width := 2, height := 1, cells := [CellType.Floor, CellType.Wall] }) := by
  exact C3_pickup_survives_wall_failure _ 0
    { id := 0, position := ⟨0, 0⟩, inventory := [] } 1 0 Item.Chip 1 0
    (by decide) (by decide) rfl (by decide) (by decide) (by decide)
    (Or.inl rfl)

/-! ## Claim C7: a Goal on the target cell wins unconditionally -/

/-- **C7.** A Move onto an in-bounds cell holding the `Goal` item returns
`Win` and relocates the agent there; no hypothesis about the target's
terrain or occupancy is needed (the source returns before inspecting
either), and the item grid — the Goal included — is left untouched. -/
theorem C7_goal_wins_without_terrain_or_occupancy_check
    (env : Environment) (id : EntityId) (st : AgentState) (dx dy : Int)
    (tx ty : Nat)
    (htx : tx = wrapAddSigned st.position.x dx)
    (hty : ty = wrapAddSigned st.position.y dy)
    (hag : env.agents id = some st)
    (hvalid : env.terrain.isValid tx ty = true)
    (hitem : (env.items.get tx ty).join = some Item.Goal) :
    (env.processAction id (.Move dx dy)).1 = .Win ∧
    (env.processAction id (.Move dx dy)).2.agents id =
      some { st with position := ⟨tx, ty⟩ } ∧
    (env.processAction id (.Move dx dy)).2.items = env.items ∧
    (env.processAction id (.Move dx dy)).2.terrain = env.terrain ∧
    (env.processAction id (.Move dx dy)).2.agent_locations =
      (env.agent_locations.setPos st.position none).setPos ⟨tx, ty⟩ (some id) := by
  subst htx hty
  simp only [processAction, resolveTerrain, hag, hvalid, not_true, if_false, hitem,
    setAgent_terrain, setAgent_items, setAgent_agent_locations]
  simp [setAgent]

/-- Witness for C7 at a concrete input in which the target is a Wall *and*
occupied by another agent, yet the mover still wins: 2×1 world, agent 0 at
(0,0), agent 1 standing on a Wall cell holding the Goal at (1,0). -/
theorem C7_goal_wins_without_terrain_or_occupancy_check_witness :
    (let env : Environment :=
      { terrain := { width := 2, height := 1, cells := [CellType.Floor, CellType.Wall] }
        items := { width := 2, height := 1, cells := [none, some Item.Goal] }
        agent_locations := { width := 2, height := 1, cells := [some 0, some 1] }
        agents := fun j => if j = 0 then
            some { id := 0, position := ⟨0, 0⟩, inventory := [] }
          else if j = 1 then
            some { id := 1, position := ⟨1, 0⟩, inventory := [] }
          else none
        next_entity_id := 2 };
     (env.processAction 0 (.Move 1 0)).1 = .Win ∧
     (env.processAction 0 (.Move 1 0)).2.agents 0 =
       some { id := 0, position := ⟨1, 0⟩, inventory := [] } ∧
     (env.processAction 0 (.Move 1 0)).2.items =
       { width := 2, height := 1, cells := [none, some Item.Goal] } ∧
     (env.processAction 0 (.Move 1 0)).2.terrain =
       { width := 2, height := 1, cells := [CellType.Floor, CellType.Wall] } ∧
     (env.processAction 0 (.Move 1 0)).2.agent_locations =
       (Grid.setPos { width := 2, height := 1, cells := [some 0, some 1] }
         ⟨0, 0⟩ none).setPos ⟨1, 0⟩ (some 0)) := by
  exact C7_goal_wins_without_terrain_or_occupancy_check _ 0
    { id := 0, position := ⟨0, 0⟩, inventory := [] } 1 0 1 0
    (by decide) (by decide) rfl (by decide) (by decide)

/-! ## Claim C9: wrap-around target computation and the bounds check -/

/-- `0.wrapping_add_signed(-1)` wraps to `usize::MAX`. -/
theorem wrapAddSigned_zero_neg_one : wrapAddSigned 0 (-1) = usizeSize - 1 := by
  unfold wrapAddSigned usizeSize
  norm_num
  rfl

/-- **C9.** The Move target is computed with wrap-around (mod `2^64`)
arithmetic and then bounds-checked: a move whose target lies before the
origin (x = 0 with dx = −1, or y = 0 with dy = −1) wraps to `usize::MAX`,
fails the bounds check of any constructible grid (whose `usize` dimensions
are below `2^64`), and returns the "out of bounds" Failure with the
environment unchanged — it never wraps to the far edge. -/
theorem C9_move_before_origin_fails_out_of_bounds
    (env : Environment) (id : EntityId) (st : AgentState) (dx dy : Int)
    (hag : env.agents id = some st)
    (hcase : (dx = -1 ∧ st.position.x = 0 ∧ env.terrain.width < usizeSize) ∨
             (dy = -1 ∧ st.position.y = 0 ∧ env.terrain.height < usizeSize)) :
    env.processAction id (.Move dx dy) =
      (.Failure "Target position is out of bounds.", env) := by
  have hinvalid : env.terrain.isValid (wrapAddSigned st.position.x dx)
      (wrapAddSigned st.position.y dy) = false := by
    rw [Grid.isValid_eq_decide]
    apply decide_eq_false
    rcases hcase with ⟨hdx, hx, hw⟩ | ⟨hdy, hy, hh⟩
    · rw [hdx, hx, wrapAddSigned_zero_neg_one]
      rintro ⟨h1, _⟩
      unfold usizeSize at *
      omega
    · rw [hdy, hy, wrapAddSigned_zero_neg_one]
      rintro ⟨_, h2⟩
      unfold usizeSize at *
      omega
  simp only [processAction, hag, hinvalid, Bool.false_eq_true, not_false_iff, if_true]

/-- Witness for C9: on a 3×3 all-floor world with agent 0 at (0,0), moving
left fails as out of bounds with no state change. -/
theorem C9_move_before_origin_fails_out_of_bounds_witness :
    (let env : Environment :=
      { terrain := Grid.new CellType.Floor 3 3
        items := Grid.new none 3 3
        agent_locations :=
          { width := 3, height := 3,
            cells := [some 0, none, none, none, none, none, none, none, none] }
        agents := fun j => if j = 0 then
            some { id := 0, position := ⟨0, 0⟩, inventory := [] } else none
        next_entity_id := 1 };
     env.processAction 0 (.Move (-1) 0) =
       (.Failure "Target position is out of bounds.", env)) := by
  apply C9_move_before_origin_fails_out_of_bounds _ 0
    { id := 0, position := ⟨0, 0⟩, inventory := [] } (-1) 0 rfl
  left
  refine ⟨rfl, rfl, ?_⟩
  unfold usizeSize
  norm_num [Grid.new]

/-! ## Claim C4: keys are consumed exactly once -/

/-- **C4.** First part: a successful Move onto a closed door requiring key
`k` (no item on the door cell, cell unoccupied, agent holding a key of
type `k`) removes exactly one `Key k` from the inventory — the first one —
and opens the door with `door_type` unchanged.  Second part: a Move onto an
already-open door (of any color, any item situation, any occupancy) never
removes anything from the inventory: the resulting inventory is the old one
possibly extended by a picked-up item. -/
theorem C4_key_consumed_exactly_once :
    (∀ (env : Environment) (id : EntityId) (st : AgentState) (dx dy : Int)
      (k : DoorKeyType) (i : Nat) (tx ty : Nat),
      tx = wrapAddSigned st.position.x dx →
      ty = wrapAddSigned st.position.y dy →
      env.agents id = some st →
      env.terrain.isValid tx ty = true →
      env.terrain.get tx ty = some (CellType.Door false (some k)) →
      (env.items.get tx ty).join = none →
      Environment.isOccupied env.agent_locations ⟨tx, ty⟩ = false →
      Environment.keyIndex st.inventory k = some i →
      (env.processAction id (.Move dx dy)).1 = .Success ∧
      (env.processAction id (.Move dx dy)).2.terrain =
        env.terrain.setAt tx ty (CellType.Door true (some k)) ∧
      (env.processAction id (.Move dx dy)).2.agents id =
        some { id := st.id, position := ⟨tx, ty⟩,
               inventory := st.inventory.eraseIdx i } ∧
      (st.inventory.eraseIdx i).count (Item.Key k) + 1 =
        st.inventory.count (Item.Key k)) ∧
    (∀ (env : Environment) (id : EntityId) (st : AgentState) (dx dy : Int)
      (dt : Option DoorKeyType) (tx ty : Nat),
      tx = wrapAddSigned st.position.x dx →
      ty = wrapAddSigned st.position.y dy →
      env.agents id = some st →
      env.terrain.isValid tx ty = true →
      env.terrain.get tx ty = some (CellType.Door true dt) →
      ∃ st2, (env.processAction id (.Move dx dy)).2.agents id = some st2 ∧
        (st2.inventory = st.inventory ∨
         ∃ it, st2.inventory = st.inventory ++ [it])) := by
  constructor
  · intro env id st dx dy k i tx ty htx hty hag hvalid hdoor hnoitem hunocc hkey
    subst htx hty
    refine ⟨?_, ?_, ?_, count_eraseIdx_of_get? (keyIndex_get hkey)⟩ <;>
      (simp only [processAction, resolveTerrain, hag, hvalid, not_true, if_false, hnoitem,
        setAgent_terrain, setAgent_items, setAgent_agent_locations]
       rw [hdoor]
       simp [setAgent, hunocc, hkey, Grid.setPos])
  · intro env id st dx dy dt tx ty htx hty hag hvalid hdoor
    subst htx hty
    rcases hjoin : (env.items.get (wrapAddSigned st.position.x dx)
        (wrapAddSigned st.position.y dy)).join with _ | item
    · by_cases hocc : Environment.isOccupied env.agent_locations
          ⟨wrapAddSigned st.position.x dx, wrapAddSigned st.position.y dy⟩ = true
      · refine ⟨st, ?_, Or.inl rfl⟩
        simp only [processAction, resolveTerrain, hag, hvalid, not_true, if_false, hjoin,
          setAgent_terrain, setAgent_items, setAgent_agent_locations]
        rw [hdoor]
        simp [setAgent, hocc]
      · refine ⟨{ st with position := ⟨wrapAddSigned st.position.x dx, wrapAddSigned st.position.y dy⟩ }, ?_, Or.inl rfl⟩
        simp only [processAction, resolveTerrain, hag, hvalid, not_true, if_false, hjoin,
          setAgent_terrain, setAgent_items, setAgent_agent_locations]
        rw [hdoor]
        simp only [Bool.not_eq_true] at hocc
        simp [setAgent, hocc]
    · cases item with
      | Goal =>
        refine ⟨{ st with position := ⟨wrapAddSigned st.position.x dx, wrapAddSigned st.position.y dy⟩ }, ?_, Or.inl rfl⟩
        simp only [processAction, resolveTerrain, hag, hvalid, not_true, if_false, hjoin]
        simp [setAgent]
      | Chip =>
        by_cases hocc : Environment.isOccupied env.agent_locations
            ⟨wrapAddSigned st.position.x dx, wrapAddSigned st.position.y dy⟩ = true
        · refine ⟨{ st with inventory := st.inventory ++ [Item.Chip] }, ?_,
            Or.inr ⟨Item.Chip, rfl⟩⟩
          simp only [processAction, resolveTerrain, hag, hvalid, not_true, if_false, hjoin,
            setAgent_terrain, setAgent_items, setAgent_agent_locations]
          rw [hdoor]
          simp [setAgent, hocc]
        · refine ⟨{ st with inventory := st.inventory ++ [Item.Chip], position := ⟨wrapAddSigned st.position.x dx, wrapAddSigned st.position.y dy⟩ }, ?_, Or.inr ⟨Item.Chip, rfl⟩⟩
          simp only [processAction, resolveTerrain, hag, hvalid, not_true, if_false, hjoin,
            setAgent_terrain, setAgent_items, setAgent_agent_locations]
          rw [hdoor]
          simp only [Bool.not_eq_true] at hocc
          simp [setAgent, hocc]
      | Key k =>
        by_cases hheld : Environment.holdsKey st.inventory k = true
        · by_cases hocc : Environment.isOccupied env.agent_locations
              ⟨wrapAddSigned st.position.x dx, wrapAddSigned st.position.y dy⟩ = true
          · refine ⟨st, ?_, Or.inl rfl⟩
            simp only [processAction, resolveTerrain, hag, hvalid, not_true, if_false, if_true, hjoin,
              hheld, setAgent_terrain, setAgent_items, setAgent_agent_locations]
            rw [hdoor]
            simp [setAgent, hocc]
          · refine ⟨{ st with position := ⟨wrapAddSigned st.position.x dx, wrapAddSigned st.position.y dy⟩ }, ?_, Or.inl rfl⟩
            simp only [processAction, resolveTerrain, hag, hvalid, not_true, if_false, if_true, hjoin,
              hheld, setAgent_terrain, setAgent_items, setAgent_agent_locations]
            rw [hdoor]
            simp only [Bool.not_eq_true] at hocc
            simp [setAgent, hocc]
        · simp only [Bool.not_eq_true] at hheld
          by_cases hocc : Environment.isOccupied env.agent_locations
              ⟨wrapAddSigned st.position.x dx, wrapAddSigned st.position.y dy⟩ = true
          · refine ⟨{ st with inventory := st.inventory ++ [Item.Key k] }, ?_,
              Or.inr ⟨Item.Key k, rfl⟩⟩
            simp only [processAction, resolveTerrain, hag, hvalid, not_true, if_false, hjoin, hheld,
              Bool.false_eq_true, setAgent_terrain, setAgent_items,
              setAgent_agent_locations]
            rw [hdoor]
            simp [setAgent, hocc]
          · refine ⟨{ st with inventory := st.inventory ++ [Item.Key k], position := ⟨wrapAddSigned st.position.x dx, wrapAddSigned st.position.y dy⟩ }, ?_, Or.inr ⟨Item.Key k, rfl⟩⟩
            simp only [processAction, resolveTerrain, hag, hvalid, not_true, if_false, hjoin, hheld,
              Bool.false_eq_true, setAgent_terrain, setAgent_items,
              setAgent_agent_locations]
            rw [hdoor]
            simp only [Bool.not_eq_true] at hocc
            simp [setAgent, hocc]

/-- Witness for C4: part 1 on a 2×1 world whose closed Red door at (1,0) is
opened by agent 0 holding `[Key Red]` (inventory empties, one key
consumed); part 2 on the same world after the door is open (inventory
untouched). -/
theorem C4_key_consumed_exactly_once_witness :
    (let env : Environment :=
      { terrain := { width := 2, height := 1, cells := [CellType.Floor, CellType.Door false (some DoorKeyType.Red)] }
        items := { width := 2, height := 1, cells := [none, none] }
        agent_locations := { width := 2, height := 1, cells := [some 0, none] }
        agents := fun j => if j = 0 then
            some { id := 0, position := ⟨0, 0⟩,
                   inventory := [Item.Key DoorKeyType.Red] } else none
        next_entity_id := 1 };
     (env.processAction 0 (.Move 1 0)).1 = .Success ∧
     (env.processAction 0 (.Move 1 0)).2.terrain =
       Grid.setAt { width := 2, height := 1, cells := [CellType.Floor, CellType.Door false (some DoorKeyType.Red)] }
         1 0 (CellType.Door true (some DoorKeyType.Red)) ∧
     (env.processAction 0 (.Move 1 0)).2.agents 0 =
       some { id := 0, position := ⟨1, 0⟩, inventory := [] } ∧
     (([Item.Key DoorKeyType.Red] : List Item).eraseIdx 0).count
         (Item.Key DoorKeyType.Red) + 1 =
       ([Item.Key DoorKeyType.Red] : List Item).count (Item.Key DoorKeyType.Red)) ∧
    (let env2 : Environment :=
      { terrain := { width := 2, height := 1, cells := [CellType.Floor, CellType.Door true (some DoorKeyType.Red)] }
        items := { width := 2, height := 1, cells := [none, none] }
        agent_locations := { width := 2, height := 1, cells := [some 0, none] }
        agents := fun j => if j = 0 then
            some { id := 0, position := ⟨0, 0⟩, inventory := [] } else none
        next_entity_id := 1 };
     ∃ st2, (env2.processAction 0 (.Move 1 0)).2.agents 0 = some st2 ∧
       (st2.inventory = ([] : List Item) ∨
        ∃ it, st2.inventory = ([] : List Item) ++ [it])) := by
  constructor
  · exact C4_key_consumed_exactly_once.1
      ({ terrain := { width := 2, height := 1, cells := [CellType.Floor, CellType.Door false (some DoorKeyType.Red)] }
         items := { width := 2, height := 1, cells := [none, none] }
         agent_locations := { width := 2, height := 1, cells := [some 0, none] }
         agents := fun j => if j = 0 then some { id := 0, position := ⟨0, 0⟩, inventory := [Item.Key DoorKeyType.Red] } else none
         next_entity_id := 1 })
      0 { id := 0, position := ⟨0, 0⟩, inventory := [Item.Key DoorKeyType.Red] }
      1 0 DoorKeyType.Red 0 1 0
      (by decide) (by decide) rfl (by decide) (by decide) (by decide) (by decide)
      (by decide)
  · exact C4_key_consumed_exactly_once.2
      ({ terrain := { width := 2, height := 1, cells := [CellType.Floor, CellType.Door true (some DoorKeyType.Red)] }
         items := { width := 2, height := 1, cells := [none, none] }
         agent_locations := { width := 2, height := 1, cells := [some 0, none] }
         agents := fun j => if j = 0 then some { id := 0, position := ⟨0, 0⟩, inventory := [] } else none
         next_entity_id := 1 })
      0 { id := 0, position := ⟨0, 0⟩, inventory := [] } 1 0 (some DoorKeyType.Red)
      1 0 (by decide) (by decide) rfl (by decide) (by decide)

/-! ## Claim C10: which behaviors can emit diagonal moves -/

/-- Every value `position_to_action` can return: `Wait` or one of the four
cardinal unit moves. -/
theorem positionToAction_shape (s d : Position) :
    PlanningAgent.positionToAction s d = Action.Wait ∨
    PlanningAgent.positionToAction s d ∈
      [Action.Move 0 1, Action.Move 0 (-1), Action.Move 1 0, Action.Move (-1) 0] := by
  unfold PlanningAgent.positionToAction
  dsimp only
  split_ifs <;> simp

/-- **C10 counterexample.** The claim says no shipped behavior ever returns
a diagonal move, but `RandomWalker::get_action` draws `dx` and `dy`
independently from `-1..=1`; with the draw pair (1, 1) it returns
`Move { dx: 1, dy: 1 }`, a diagonal move (both components nonzero). -/
theorem C10_random_walker_returns_diagonal :
    agentStep (AgentImpl.randomWalker [(1, 1)]) Examples.trivialView =
      (Action.Move 1 1, AgentImpl.randomWalker []) ∧
    (1 : Int) ≠ 0 ∧ (1 : Int) ≠ 0 := by
  refine ⟨rfl, by decide, by decide⟩

/-- **C10 amended.** The planning agent never returns a diagonal move: for
every plan queue and every view, `PlanningAgent::get_action` returns `Wait`
or a cardinal unit move.  (`RandomWalker` may return a diagonal move, as
the counterexample shows.) -/
theorem C10_planning_agent_never_diagonal (plan : List Position)
    (view : EnvironmentView) :
    (PlanningAgent.getAction plan view).1 = Action.Wait ∨
    (PlanningAgent.getAction plan view).1 ∈
      [Action.Move 0 1, Action.Move 0 (-1), Action.Move 1 0, Action.Move (-1) 0] := by
  unfold PlanningAgent.getAction
  cases plan with
  | cons next rest => exact positionToAction_shape _ _
  | nil =>
    dsimp only
    split
    · split
      · split
        · exact positionToAction_shape _ _
        · left; rfl
      · split
        · split
          · split
            · exact positionToAction_shape _ _
            · left; rfl
          · left; rfl
        · left; rfl
    · split
      · split
        · split
          · exact positionToAction_shape _ _
          · left; rfl
        · left; rfl
      · left; rfl

/-! ## Claim C2: the turn order is HashMap order, not ascending id -/

/-- **C2.** The claim says `process_turn` visits agents in a fixed
ascending-id order, making the turn deterministic.  The source instead
collects `self.agents.keys()` from a `HashMap`, whose iteration order is
unspecified (hasher dependent and varying between runs).  Both `[0, 1]` and
`[1, 0]` are possible key orders of the same two-agent map, and running
`process_turn` over `chipRace` with these two orders produces different
final states: the agent acting first wins the race to the only chip.  This
refutes order-independence, and the source contains no sorting that would
pin the ascending order the spec requires. -/
theorem C2_hashmap_turn_order_changes_result :
    (processTurn Examples.chipRace Examples.chipRaceBehaviors [0, 1]).2.1.agents 0 =
      some { id := 0, position := ⟨1, 0⟩, inventory := [Item.Chip] } ∧
    (processTurn Examples.chipRace Examples.chipRaceBehaviors [1, 0]).2.1.agents 0 =
      some { id := 0, position := ⟨0, 0⟩, inventory := [] } ∧
    (processTurn Examples.chipRace Examples.chipRaceBehaviors [0, 1]).2.1.agents 0 ≠
      (processTurn Examples.chipRace Examples.chipRaceBehaviors [1, 0]).2.1.agents 0 := by
  refine ⟨by decide, by decide, by decide⟩

/-! ## Claim C8: first-in-row-major key, not nearest key -/

/-- **C8 counterexample.** In `twoRedKeys` the door at (2,0) requires Red;
Red keys lie at (0,0) (Manhattan distance 2 from the door) and (1,0)
(distance 1).  `get_corresponding_key_location` returns (0,0) — the first
match in row-major enumeration order — not the nearest key (1,0). -/
theorem C8_returns_first_not_nearest :
    Examples.twoRedKeys.getCorrespondingKeyLocation ⟨2, 0⟩ = some ⟨0, 0⟩ ∧
    Examples.twoRedKeys.items.get 1 0 = some (some (Item.Key DoorKeyType.Red)) ∧
    PlanningAgent.manhattanDistance ⟨1, 0⟩ ⟨2, 0⟩ <
      PlanningAgent.manhattanDistance ⟨0, 0⟩ ⟨2, 0⟩ := by
  refine ⟨by decide, by decide, by decide⟩

/-- `findSome?` over an index-enumerated list, when the selector tests the
element and rebuilds a value from the index, is `findIdx?` followed by that
rebuild. -/
theorem findSome?_enumFrom_eq {α β : Type} (p : α → Bool) (g : Nat → β)
    (f : Nat × α → Option β)
    (hf : ∀ i a, f (i, a) = if p a then some (g i) else none) :
    ∀ (l : List α) (n : Nat),
      (l.enumFrom n).findSome? f = (List.findIdx? p l n).map g := by
  intro l
  induction l with
  | nil => intro n; simp [List.findIdx?_nil]
  | cons a t ih =>
    intro n
    rw [List.enumFrom_cons, List.findSome?_cons, hf, List.findIdx?_cons]
    by_cases hp : p a = true
    · simp [hp]
    · simp only [Bool.not_eq_true] at hp
      simp [hp, ih]

/-- `Environment::get_key_location` returns the position rebuilt by
`index_to_coords` from the *first* flat index, in row-major order, whose
cell holds a key of the requested type. -/
theorem getKeyLocation_eq_findIdx (env : Environment) (k : DoorKeyType) :
    env.getKeyLocation k =
      (env.items.cells.findIdx? (fun c => c = some (Item.Key k))).map
        (fun i => (⟨i % env.items.width, i / env.items.width⟩ : Position)) := by
  unfold Environment.getKeyLocation Grid.enumerate
  rw [List.findSome?_map]
  exact findSome?_enumFrom_eq (fun c => c = some (Item.Key k))
    (fun i => (⟨i % env.items.width, i / env.items.width⟩ : Position)) _
    (by
      intro i a
      cases a with
      | none => simp
      | some it =>
        cases it with
        | Key kt =>
          by_cases hk : kt = k
          · subst hk; simp [Function.comp]
          · simp [Function.comp, hk]
        | Chip => simp [Function.comp]
        | Goal => simp [Function.comp])
    env.items.cells 0

/-- **C8 amended.** For a door cell requiring key type `k`,
`get_corresponding_key_location` returns the location of the *first* cell
in row-major enumeration order holding `Key k` (as `index_to_coords` of
the first matching flat index) — which, as the counterexample shows, need
not be the nearest such key to the door. -/
theorem C8_amended_first_key_in_row_major_order
    (env : Environment) (dp : Position) (b : Bool) (k : DoorKeyType)
    (hdoor : env.terrain.get dp.x dp.y = some (CellType.Door b (some k))) :
    env.getCorrespondingKeyLocation dp =
      (env.items.cells.findIdx? (fun c => c = some (Item.Key k))).map
        (fun i => (⟨i % env.items.width, i / env.items.width⟩ : Position)) := by
  unfold Environment.getCorrespondingKeyLocation
  rw [hdoor]
  exact getKeyLocation_eq_findIdx env k

/-- Witness for the amended C8 on `twoRedKeys`: the door at (2,0) requires
Red and the helper returns (0,0), the first Red key in row-major order. -/
theorem C8_amended_first_key_in_row_major_order_witness :
    Examples.twoRedKeys.getCorrespondingKeyLocation ⟨2, 0⟩ =
      (Examples.twoRedKeys.items.cells.findIdx?
        (fun c => c = some (Item.Key DoorKeyType.Red))).map
        (fun i => (⟨i % Examples.twoRedKeys.items.width,
                    i / Examples.twoRedKeys.items.width⟩ : Position)) :=
  C8_amended_first_key_in_row_major_order Examples.twoRedKeys ⟨2, 0⟩ false
    DoorKeyType.Red (by decide)

/-! ## Claim C1: the occupancy invariant -/

/-- An unoccupied cell holds no agent id. -/
theorem isOccupied_false_no_id {locs : Grid (Option EntityId)} {p : Position}
    (h : Environment.isOccupied locs p = false) :
    ∀ j, locs.getPos p ≠ some (some j) := by
  intro j hj
  unfold Environment.isOccupied at h
  rw [hj] at h
  simp at h

/-- The occupancy invariant only watches positions: replacing one agent's
state by a state with the same position preserves it. -/
theorem OccInvOn_set_same_position
    {locs : Grid (Option EntityId)} {agents : EntityId → Option AgentState}
    (hinv : Environment.OccInvOn locs agents)
    {aid : EntityId} {st : AgentState} (newSt : AgentState)
    (hag : agents aid = some st)
    (hpos : newSt.position = st.position)
    (agents2 : EntityId → Option AgentState)
    (h2 : ∀ j, agents2 j = if j = aid then some newSt else agents j) :
    Environment.OccInvOn locs agents2 := by
  obtain ⟨ha, hb⟩ := hinv
  constructor
  · intro j stj hj
    rw [h2 j] at hj
    by_cases hji : j = aid
    · rw [if_pos hji] at hj
      cases hj
      rw [hpos, hji]
      exact ha aid st hag
    · rw [if_neg hji] at hj
      exact ha j stj hj
  · intro p j hp
    obtain ⟨st2, hst2, hpos2⟩ := hb p j hp
    by_cases hji : j = aid
    · rw [hji] at hst2 ⊢
      rw [hag] at hst2
      cases hst2
      refine ⟨newSt, by rw [h2]; simp, by rw [hpos, hpos2]⟩
    · exact ⟨st2, by rw [h2, if_neg hji]; exact hst2, hpos2⟩

/-- The occupancy invariant is preserved by the transactional move update
(clear the origin cell, set the target cell, update the mover's position),
provided the target is in bounds and holds no *other* agent. -/
theorem OccInvOn_move
    {locs : Grid (Option EntityId)} {agents : EntityId → Option AgentState}
    (hwf : locs.WF) (hinv : Environment.OccInvOn locs agents)
    {aid : EntityId} {st : AgentState} (hag : agents aid = some st)
    {tgt : Position} (htx : tgt.x < locs.width) (hty : tgt.y < locs.height)
    (hcell : Environment.isOccupied locs tgt = false ∨
      locs.getPos tgt = some (some aid))
    (newSt : AgentState) (hpos : newSt.position = tgt)
    (agents2 : EntityId → Option AgentState)
    (h2 : ∀ j, agents2 j = if j = aid then some newSt else agents j) :
    Environment.OccInvOn ((locs.setPos st.position none).setPos tgt (some aid))
      agents2 := by
  obtain ⟨ha, hb⟩ := hinv
  have hstcell : locs.getPos st.position = some (some aid) := (ha aid st hag).1
  have hstb : st.position.x < locs.width ∧ st.position.y < locs.height := by
    have : (locs.getPos st.position).isSome := by rw [hstcell]; rfl
    exact (Grid.getPos_isSome_iff hwf).mp this
  have hnotother : ∀ j, j ≠ aid → locs.getPos tgt ≠ some (some j) := by
    rcases hcell with hfree | hself
    · intro j _; exact isOccupied_false_no_id hfree j
    · intro j hj hcontra
      rw [hself] at hcontra
      exact hj (by injection hcontra with h; injection h with h; exact h.symm)
  have f1 : ((locs.setPos st.position none).setPos tgt (some aid)).getPos tgt =
      some (some aid) := by
    apply Grid.getPos_setPos_same (Grid.setPos_wf hwf _ _)
    · rw [Grid.setPos_width]; exact htx
    · rw [Grid.setPos_height]; exact hty
  have f2 : ∀ p, p ≠ tgt →
      ((locs.setPos st.position none).setPos tgt (some aid)).getPos p =
        if p = st.position then some none else locs.getPos p := by
    intro p hp
    rw [Grid.getPos_setPos_ne _ hp]
    by_cases hps : p = st.position
    · rw [if_pos hps, hps]
      exact Grid.getPos_setPos_same hwf hstb.1 hstb.2 none
    · rw [if_neg hps]
      exact Grid.getPos_setPos_ne _ hps none
  constructor
  · intro j stj hj
    rw [h2 j] at hj
    by_cases hji : j = aid
    · rw [if_pos hji] at hj
      cases hj
      rw [hpos, hji]
      refine ⟨f1, ?_⟩
      intro p hpcell
      by_cases hp : p = tgt
      · exact hp
      · exfalso
        rw [f2 p hp] at hpcell
        by_cases hps : p = st.position
        · rw [if_pos hps] at hpcell
          exact Option.noConfusion (Option.some.inj hpcell)
        · rw [if_neg hps] at hpcell
          exact hps ((ha aid st hag).2 p hpcell)
    · rw [if_neg hji] at hj
      have horig := ha j stj hj
      have hjt : stj.position ≠ tgt := by
        intro hc
        exact hnotother j hji (hc ▸ horig.1)
      have hjs : stj.position ≠ st.position := by
        intro hc
        have hx := horig.1
        rw [hc, hstcell] at hx
        exact hji (by injection hx with h; injection h with h; exact h.symm)
      constructor
      · rw [f2 _ hjt, if_neg hjs]
        exact horig.1
      · intro p hpcell
        by_cases hp : p = tgt
        · exfalso
          rw [hp, f1] at hpcell
          exact hji (by injection hpcell with h; injection h with h; exact h.symm)
        · rw [f2 p hp] at hpcell
          by_cases hps : p = st.position
          · rw [if_pos hps] at hpcell
            exact absurd (Option.some.inj hpcell) (by simp)
          · rw [if_neg hps] at hpcell
            exact horig.2 p hpcell
  · intro p j hp
    by_cases hpt : p = tgt
    · rw [hpt, f1] at hp
      have hji : j = aid := by injection hp with h; injection h with h; exact h.symm
      rw [hji, hpt]
      exact ⟨newSt, by rw [h2]; simp, by rw [hpos]⟩
    · rw [f2 p hpt] at hp
      by_cases hps : p = st.position
      · rw [if_pos hps] at hp
        exact absurd (Option.some.inj hp) (by simp)
      · rw [if_neg hps] at hp
        obtain ⟨st2, hst2, hpos2⟩ := hb p j hp
        have hji : j ≠ aid := by
          intro hc
          rw [hc, hag] at hst2
          cases hst2
          exact hps hpos2.symm
        exact ⟨st2, by rw [h2, if_neg hji]; exact hst2, hpos2⟩

/-- Step 3 of `process_action` preserves the occupancy invariant: every
branch either leaves the location grid and all positions unchanged, or
performs the guarded transactional move. -/
theorem OccInvOn_resolveTerrain
    (env : Environment) (aid : EntityId) (st : AgentState) (tgt : Position)
    (hwf : env.agent_locations.WF)
    (htx : tgt.x < env.agent_locations.width)
    (hty : tgt.y < env.agent_locations.height)
    (hinv : Environment.OccInvOn env.agent_locations env.agents)
    (hag : env.agents aid = some st) :
    Environment.OccInvOn
      (Environment.resolveTerrain env aid st st.position tgt).2.agent_locations
      (Environment.resolveTerrain env aid st st.position tgt).2.agents := by
  unfold Environment.resolveTerrain
  rcases hterr : env.terrain.get tgt.x tgt.y with _ | cell
  · exact hinv
  · cases cell with
    | Floor =>
      dsimp only
      by_cases hocc : Environment.isOccupied env.agent_locations tgt = true
      · rw [if_pos hocc]; exact hinv
      · rw [if_neg hocc]
        simp only [Bool.not_eq_true] at hocc
        exact OccInvOn_move hwf hinv hag htx hty (Or.inl hocc)
          { id := st.id, position := tgt, inventory := st.inventory } rfl _
          (fun j => by simp [Environment.setAgent])
    | Wall => exact hinv
    | Door opened dt =>
      cases opened with
      | true =>
        dsimp only
        by_cases hocc : Environment.isOccupied env.agent_locations tgt = true
        · rw [if_pos hocc]; exact hinv
        · rw [if_neg hocc]
          simp only [Bool.not_eq_true] at hocc
          exact OccInvOn_move hwf hinv hag htx hty (Or.inl hocc)
            { id := st.id, position := tgt, inventory := st.inventory } rfl _
            (fun j => by simp [Environment.setAgent])
      | false =>
        cases dt with
        | none =>
          dsimp only
          by_cases hocc : Environment.isOccupied env.agent_locations tgt = true
          · rw [if_pos hocc]; exact hinv
          · rw [if_neg hocc]
            simp only [Bool.not_eq_true] at hocc
            exact OccInvOn_move hwf hinv hag htx hty (Or.inl hocc)
              { id := st.id, position := tgt, inventory := st.inventory } rfl _
              (fun j => by simp [Environment.setAgent])
        | some req =>
          dsimp only
          by_cases hocc : Environment.isOccupied env.agent_locations tgt = true
          · rw [if_pos hocc]; exact hinv
          · rw [if_neg hocc]
            simp only [Bool.not_eq_true] at hocc
            rcases hki : Environment.keyIndex st.inventory req with _ | idx
            · exact hinv
            · dsimp only
              exact OccInvOn_move hwf hinv hag htx hty (Or.inl hocc)
                { id := st.id, position := tgt,
                  inventory := st.inventory.eraseIdx idx } rfl _
                (fun j => by simp [Environment.setAgent])

/-- **C1 counterexample.** In `goalOverwrite`, the occupancy invariant holds,
yet agent 0's Move onto the Goal cell (1,0) — occupied by agent 1 — returns
`Win` and overwrites agent 1's registration in `agent_locations`: afterwards
no cell holds agent 1's id, refuting the claim that *every* call to
`process_action` preserves the invariant.  The pre-state is constructible
through the public API (`add_item` Goal at (1,0), then `add_agent` 1 there —
which only warns about the item — then `add_agent` 0 at (0,0)). -/
theorem C1_goal_win_breaks_occupancy_invariant :
    Examples.goalOverwrite.OccInv ∧
    (Examples.goalOverwrite.processAction 0 (.Move 1 0)).1 = .Win ∧
    ¬ (Examples.goalOverwrite.processAction 0 (.Move 1 0)).2.OccInv := by
  refine ⟨⟨?_, ?_⟩, by decide, ?_⟩
  · intro j stj hj
    by_cases hj0 : j = 0
    · subst hj0
      have : stj = { id := 0, position := ⟨0, 0⟩, inventory := [] } := by
        simpa [Examples.goalOverwrite] using hj.symm
      subst this
      refine ⟨by decide, ?_⟩
      intro p hp
      have hb := Grid.getPos_some_bounds hp
      have hx : p.x < 2 := hb.1
      have hy : p.y < 1 := hb.2
      rcases p with ⟨x, y⟩
      simp only at hx hy
      interval_cases x <;> interval_cases y
      · rfl
      · exact absurd hp (by decide)
    · by_cases hj1 : j = 1
      · subst hj1
        have : stj = { id := 1, position := ⟨1, 0⟩, inventory := [] } := by
          simpa [Examples.goalOverwrite] using hj.symm
        subst this
        refine ⟨by decide, ?_⟩
        intro p hp
        have hb := Grid.getPos_some_bounds hp
        have hx : p.x < 2 := hb.1
        have hy : p.y < 1 := hb.2
        rcases p with ⟨x, y⟩
        simp only at hx hy
        interval_cases x <;> interval_cases y
        · exact absurd hp (by decide)
        · rfl
      · exact absurd hj (by simp [Examples.goalOverwrite, hj0, hj1])
  · intro p j hp
    have hb := Grid.getPos_some_bounds hp
    have hx : p.x < 2 := hb.1
    have hy : p.y < 1 := hb.2
    rcases p with ⟨x, y⟩
    simp only at hx hy
    interval_cases x <;> interval_cases y
    · have hj : j = 0 := by
        have := hp
        simp only [Examples.goalOverwrite] at this
        have h2 : some (some 0) = some (some j) := by
          rw [← this]; decide
        injection h2 with h3
        injection h3 with h4
        exact h4.symm
      subst hj
      exact ⟨{ id := 0, position := ⟨0, 0⟩, inventory := [] }, by decide, rfl⟩
    · have hj : j = 1 := by
        have := hp
        have h2 : some (some 1) = some (some j) := by
          rw [← this]; decide
        injection h2 with h3
        injection h3 with h4
        exact h4.symm
      subst hj
      exact ⟨{ id := 1, position := ⟨1, 0⟩, inventory := [] }, by decide, rfl⟩
  · intro hcontra
    have h1 := (hcontra.1 1 { id := 1, position := ⟨1, 0⟩, inventory := [] }
      (by decide)).1
    exact absurd h1 (by decide)

/-- **C1 amended.** `process_action` preserves the occupancy invariant
provided that a Move whose target holds the Goal item targets a cell that
is unoccupied or occupied by the mover itself (the proviso the
counterexample forces: the Win branch performs no occupancy check and would
evict another occupant).  Moreover, whenever the mover remains registered
after the call — in particular after any Success or Win Move — exactly one
cell of `agent_locations` holds the mover's id, and it is the mover's
`position` field. -/
theorem C1_occupancy_invariant_preserved
    (env : Environment) (aid : EntityId) (action : Action)
    (hwf : env.agent_locations.WF)
    (hdw : env.agent_locations.width = env.terrain.width)
    (hdh : env.agent_locations.height = env.terrain.height)
    (hinv : env.OccInv)
    (hguard : ∀ st dx dy, env.agents aid = some st → action = .Move dx dy →
      (env.items.get (wrapAddSigned st.position.x dx)
        (wrapAddSigned st.position.y dy)).join = some Item.Goal →
      Environment.isOccupied env.agent_locations
        ⟨wrapAddSigned st.position.x dx, wrapAddSigned st.position.y dy⟩ = true →
      env.agent_locations.getPos
        ⟨wrapAddSigned st.position.x dx, wrapAddSigned st.position.y dy⟩ =
        some (some aid)) :
    (env.processAction aid action).2.OccInv ∧
    ∀ st2, (env.processAction aid action).2.agents aid = some st2 →
      (env.processAction aid action).2.agent_locations.getPos st2.position =
        some (some aid) ∧
      ∀ p, (env.processAction aid action).2.agent_locations.getPos p =
        some (some aid) → p = st2.position := by
  have hmain : (env.processAction aid action).2.OccInv := by
    rcases hag : env.agents aid with _ | st
    · simpa only [Environment.processAction, hag] using hinv
    · cases action with
      | Wait => simpa only [Environment.processAction, hag] using hinv
      | Move dx dy =>
        by_cases hvalid : env.terrain.isValid (wrapAddSigned st.position.x dx)
            (wrapAddSigned st.position.y dy) = true
        · have hbnd := Grid.isValid_iff.mp hvalid
          have htx : wrapAddSigned st.position.x dx < env.agent_locations.width := by
            rw [hdw]; exact hbnd.1
          have hty : wrapAddSigned st.position.y dy < env.agent_locations.height := by
            rw [hdh]; exact hbnd.2
          rcases hjoin : (env.items.get (wrapAddSigned st.position.x dx)
              (wrapAddSigned st.position.y dy)).join with _ | item
          · -- no item on the target: pickup is the identity
            simp only [Environment.processAction, hag, hvalid, not_true, if_false,
              hjoin]
            exact OccInvOn_resolveTerrain _ aid st _ hwf htx hty
              (OccInvOn_set_same_position hinv st hag rfl _
                (fun j => by simp [Environment.setAgent]))
              (by simp [Environment.setAgent])
          · cases item with
            | Goal =>
              simp only [Environment.processAction, hag, hvalid, not_true, if_false,
                hjoin]
              by_cases hocc : Environment.isOccupied env.agent_locations
                  ⟨wrapAddSigned st.position.x dx, wrapAddSigned st.position.y dy⟩ =
                  true
              · exact OccInvOn_move hwf hinv hag htx hty
                  (Or.inr (hguard st dx dy hag rfl hjoin hocc))
                  { id := st.id,
                    position := ⟨wrapAddSigned st.position.x dx,
                      wrapAddSigned st.position.y dy⟩,
                    inventory := st.inventory } rfl _
                  (fun j => by simp [Environment.setAgent])
              · simp only [Bool.not_eq_true] at hocc
                exact OccInvOn_move hwf hinv hag htx hty (Or.inl hocc)
                  { id := st.id,
                    position := ⟨wrapAddSigned st.position.x dx,
                      wrapAddSigned st.position.y dy⟩,
                    inventory := st.inventory } rfl _
                  (fun j => by simp [Environment.setAgent])
            | Chip =>
              simp only [Environment.processAction, hag, hvalid, not_true, if_false,
                hjoin]
              exact OccInvOn_resolveTerrain _ aid
                { id := st.id, position := st.position,
                  inventory := st.inventory ++ [Item.Chip] } _ hwf htx hty
                (OccInvOn_set_same_position hinv
                  { id := st.id, position := st.position,
                    inventory := st.inventory ++ [Item.Chip] } hag rfl _
                  (fun j => by simp [Environment.setAgent]))
                (by simp [Environment.setAgent])
            | Key k =>
              by_cases hheld : Environment.holdsKey st.inventory k = true
              · simp only [Environment.processAction, hag, hvalid, not_true,
                  if_false, hjoin, hheld, if_true]
                exact OccInvOn_resolveTerrain _ aid st _ hwf htx hty
                  (OccInvOn_set_same_position hinv st hag rfl _
                    (fun j => by simp [Environment.setAgent]))
                  (by simp [Environment.setAgent])
              · simp only [Bool.not_eq_true] at hheld
                simp only [Environment.processAction, hag, hvalid, not_true,
                  if_false, hjoin, hheld, Bool.false_eq_true]
                exact OccInvOn_resolveTerrain _ aid
                  { id := st.id, position := st.position,
                    inventory := st.inventory ++ [Item.Key k] } _ hwf htx hty
                  (OccInvOn_set_same_position hinv
                    { id := st.id, position := st.position,
                      inventory := st.inventory ++ [Item.Key k] } hag rfl _
                    (fun j => by simp [Environment.setAgent]))
                  (by simp [Environment.setAgent])
        · simp only [Environment.processAction, hag, hvalid, Bool.false_eq_true]
          simpa using hinv
  refine ⟨hmain, ?_⟩
  intro st2 hst2
  exact hmain.1 aid st2 hst2

/-- Witness for the amended C1: a 2×1 all-floor world with agent 0 at
(0,0); moving right succeeds and afterwards cell (1,0) — and only it —
holds id 0. -/
theorem C1_occupancy_invariant_preserved_witness :
    (Examples.straightMove.processAction 0 (.Move 1 0)).2.OccInv ∧
    ∀ st2, (Examples.straightMove.processAction 0 (.Move 1 0)).2.agents 0 =
        some st2 →
      (Examples.straightMove.processAction 0
        (.Move 1 0)).2.agent_locations.getPos st2.position = some (some 0) ∧
      ∀ p, (Examples.straightMove.processAction 0
        (.Move 1 0)).2.agent_locations.getPos p = some (some 0) →
        p = st2.position := by
  apply C1_occupancy_invariant_preserved Examples.straightMove 0 (.Move 1 0)
    rfl rfl rfl
  · constructor
    · intro j stj hj
      by_cases hj0 : j = 0
      · subst hj0
        have : stj = { id := 0, position := ⟨0, 0⟩, inventory := [] } := by
          simpa [Examples.straightMove] using hj.symm
        subst this
        refine ⟨by decide, ?_⟩
        intro p hp
        have hb := Grid.getPos_some_bounds hp
        have hx : p.x < 2 := hb.1
        have hy : p.y < 1 := hb.2
        rcases p with ⟨x, y⟩
        simp only at hx hy
        interval_cases x <;> interval_cases y
        · rfl
        · exact absurd hp (by decide)
      · exact absurd hj (by simp [Examples.straightMove, hj0])
    · intro p j hp
      have hb := Grid.getPos_some_bounds hp
      have hx : p.x < 2 := hb.1
      have hy : p.y < 1 := hb.2
      rcases p with ⟨x, y⟩
      simp only at hx hy
      interval_cases x <;> interval_cases y
      · have hj : j = 0 := by
          have h2 : some (some 0) = some (some j) := by rw [← hp]; decide
          injection h2 with h3
          injection h3 with h4
          exact h4.symm
        subst hj
        exact ⟨{ id := 0, position := ⟨0, 0⟩, inventory := [] }, by decide, rfl⟩
      · have h0 : Examples.straightMove.agent_locations.getPos ⟨1, 0⟩ =
            some none := by decide
        rw [h0] at hp
        simp at hp
  · intro st dx dy hst heq hgoal
    cases heq
    have hst2 : st = { id := 0, position := ⟨0, 0⟩, inventory := [] } := by
      simpa [Examples.straightMove] using hst.symm
    subst hst2
    exact absurd hgoal (by decide)

/-! ## Claim C6: A* never plans through a blocked door (soundness) -/

open PlanningAgent

theorem lookupA_insertA_same {β : Type} (l : List (Position × β)) (k : Position)
    (v : β) : lookupA (insertA l k v) k = some v := by
  simp [lookupA, insertA, List.find?_cons]

theorem find?_filter_ne {β : Type} {k k2 : Position} (h : k2 ≠ k) :
    ∀ (l : List (Position × β)),
      (l.filter fun e => e.1 != k).find? (fun e => e.1 == k2) =
        l.find? (fun e => e.1 == k2) := by
  intro l
  induction l with
  | nil => rfl
  | cons a t ih =>
    rw [List.filter_cons, List.find?_cons]
    by_cases ha : a.1 = k
    · have h1 : (a.1 != k) = false := by simp [ha]
      have h2 : (a.1 == k2) = false := by
        simp only [beq_eq_false_iff_ne, ne_eq, ha]
        intro hc
        exact h hc.symm
      rw [h1, h2]
      simpa using ih
    · have h1 : (a.1 != k) = true := by simp [ha]
      rw [h1]
      by_cases h2 : (a.1 == k2) = true
      · simp [List.find?_cons, h2]
      · have h3 : (a.1 == k2) = false := by simpa using h2
        simp [List.find?_cons, h3, ih]

theorem lookupA_insertA_ne {β : Type} (l : List (Position × β)) {k k2 : Position}
    (v : β) (h : k2 ≠ k) : lookupA (insertA l k v) k2 = lookupA l k2 := by
  unfold lookupA insertA
  rw [List.find?_cons]
  have hbeq : ((k, v).1 == k2) = false := by
    simp only [beq_eq_false_iff_ne, ne_eq]
    intro hc
    exact h hc.symm
  rw [hbeq]
  simp only [cond_false]
  rw [find?_filter_ne h l]

theorem relaxNeighbor_cameFrom (goal current : Position) (st : AStarState)
    (n : Position) :
    (relaxNeighbor goal current st n).came_from = st.came_from ∨
    (relaxNeighbor goal current st n).came_from = insertA st.came_from n current := by
  unfold relaxNeighbor
  dsimp only
  split
  · right; rfl
  · left; rfl

theorem CameFromValid_relax {view : EnvironmentView} {keys : List DoorKeyType}
    (goal current : Position) (st : AStarState) (n : Position)
    (hstep : ValidStep view keys current n)
    (hcf : CameFromValid view keys st.came_from) :
    CameFromValid view keys (relaxNeighbor goal current st n).came_from := by
  rcases relaxNeighbor_cameFrom goal current st n with h | h <;> rw [h]
  · exact hcf
  · intro p c hp
    by_cases hpn : p = n
    · subst hpn
      rw [lookupA_insertA_same] at hp
      cases hp
      exact hstep
    · rw [lookupA_insertA_ne _ _ hpn] at hp
      exact hcf p c hp

theorem CameFromValid_fold {view : EnvironmentView} {keys : List DoorKeyType}
    (goal current : Position) :
    ∀ (ns : List Position) (st : AStarState),
      (∀ n ∈ ns, ValidStep view keys current n) →
      CameFromValid view keys st.came_from →
      CameFromValid view keys
        ((ns.foldl (relaxNeighbor goal current) st).came_from) := by
  intro ns
  induction ns with
  | nil => intro st _ hcf; exact hcf
  | cons n t ih =>
    intro st hns hcf
    rw [List.foldl_cons]
    exact ih _ (fun m hm => hns m (List.mem_cons_of_mem _ hm))
      (CameFromValid_relax goal current st n (hns n (List.mem_cons_self _ _)) hcf)

set_option maxRecDepth 4000 in
theorem CameFromValid_loop {view : EnvironmentView} {keys : List DoorKeyType}
    {goal : Position} :
    ∀ (fuel : Nat) (st : AStarState),
      CameFromValid view keys st.came_from →
      ∀ st2, aStarLoop view keys goal fuel st = .reached st2 →
        CameFromValid view keys st2.came_from := by
  intro fuel
  induction fuel with
  | zero =>
    intro st _ st2 h
    simp [aStarLoop] at h
  | succ n ih =>
    intro st hcf st2 h
    rw [aStarLoop] at h
    rcases hpop : popMin st.frontier with _ | ⟨e, rest⟩ <;> rw [hpop] at h
    · cases h
    · dsimp only at h
      by_cases hgoal : e.position = goal
      · rw [if_pos hgoal] at h
        cases h
        exact hcf
      · rw [if_neg hgoal] at h
        have hns : ∀ m ∈ getValidNeighbors e.position view keys,
            ValidStep view keys e.position m := fun m hm => hm
        have hcf2 := CameFromValid_fold goal e.position
          (getValidNeighbors e.position view keys) { st with frontier := rest }
          hns hcf
        exact ih _ hcf2 st2 h

theorem reconstructPath_sound {view : EnvironmentView} {keys : List DoorKeyType}
    (cf : List (Position × Position)) (start : Position)
    (hcf : CameFromValid view keys cf) :
    ∀ (fuel : Nat) (p : Position) (acc l : List Position),
      reconstructPath cf start fuel p acc = some l →
      Reach view keys start p := by
  intro fuel
  induction fuel with
  | zero =>
    intro p acc l h
    simp [reconstructPath] at h
  | succ n ih =>
    intro p acc l h
    rw [reconstructPath] at h
    by_cases hp : p = start
    · subst hp
      exact Relation.ReflTransGen.refl
    · rw [if_neg hp] at h
      rcases hc : lookupA cf p with _ | c <;> rw [hc] at h
      · cases h
      · exact Relation.ReflTransGen.tail (ih c _ l h) (hcf p c hc)

/-- Soundness of `a_star_path`: a returned path implies the goal is
reachable through valid-neighbor steps. -/
theorem aStarPath_sound (start goal : Position) (view : EnvironmentView)
    (keys : List DoorKeyType) (l : List Position)
    (h : aStarPath start goal view keys = some l) :
    Reach view keys start goal := by
  unfold aStarPath at h
  dsimp only at h
  rcases hloop : aStarLoop view keys goal
      (5 * (view.terrain_grid.width * view.terrain_grid.height) *
        (view.terrain_grid.width * view.terrain_grid.height) + 2)
      { frontier := [{ priority := 0, position := start }], came_from := [],
        cost_so_far := [(start, 0)] } with st2 | _ | _ <;> rw [hloop] at h
  · have hcf0 : CameFromValid view keys
        ([] : List (Position × Position)) := by
      intro p c hp
      simp [lookupA] at hp
    have hcf2 := CameFromValid_loop _ _ hcf0 st2 hloop
    exact reconstructPath_sound _ _ hcf2 _ _ _ _ h
  · cases h
  · cases h

/-- **C6.** If the goal is not reachable from the start through
valid-neighbor steps — in particular when every route is blocked by some
closed door whose required key is not in `keys_held` (valid steps exclude
exactly walls, out-of-bounds cells, agent-occupied cells, and such doors) —
then `a_star_path` returns `None`. -/
theorem C6_no_path_when_every_route_blocked (start goal : Position)
    (view : EnvironmentView) (keys_held : List DoorKeyType)
    (hunreach : ¬ Reach view keys_held start goal) :
    aStarPath start goal view keys_held = none := by
  rcases h : aStarPath start goal view keys_held with _ | l
  · rfl
  · exact absurd (aStarPath_sound start goal view keys_held l h) hunreach

/-- Witness for C6 on `lockedView`: the only route from (0,0) to (2,0)
passes the closed Red door at (1,0) and no key is held, so the start has no
valid neighbors at all, the goal is unreachable, and A* returns `None`. -/
theorem C6_no_path_when_every_route_blocked_witness :
    ¬ Reach Examples.lockedView [] ⟨0, 0⟩ ⟨2, 0⟩ ∧
    aStarPath ⟨0, 0⟩ ⟨2, 0⟩ Examples.lockedView [] = none := by
  have hns : getValidNeighbors ⟨0, 0⟩ Examples.lockedView [] = [] := by decide
  have hnr : ¬ Reach Examples.lockedView [] ⟨0, 0⟩ ⟨2, 0⟩ := by
    intro hr
    rcases Relation.ReflTransGen.cases_head hr with heq | ⟨c, hstep, -⟩
    · exact absurd heq (by decide)
    · rw [ValidStep, hns] at hstep
      simp at hstep
  exact ⟨hnr, C6_no_path_when_every_route_blocked _ _ _ _ hnr⟩

/-! ### Priority-queue, association-list and geometry lemmas for C5 -/

theorem popMin_eq_none : ∀ {l : List PrioritizedItem}, popMin l = none → l = [] := by
  intro l h
  cases l with
  | nil => rfl
  | cons a t =>
    rw [popMin] at h
    rcases h2 : popMin t with _ | ⟨m, r2⟩ <;> rw [h2] at h
    · cases h
    · dsimp only at h
      split at h <;> cases h

theorem popMin_perm : ∀ {l : List PrioritizedItem} {e : PrioritizedItem}
    {rest : List PrioritizedItem},
    popMin l = some (e, rest) → l.Perm (e :: rest) := by
  intro l
  induction l with
  | nil => intro e rest h; cases h
  | cons a t ih =>
    intro e rest h
    rw [popMin] at h
    rcases h2 : popMin t with _ | ⟨m, r2⟩ <;> rw [h2] at h
    · cases h
      have ht := popMin_eq_none h2
      subst ht
      exact List.Perm.refl _
    · dsimp only at h
      by_cases hle : a.priority ≤ m.priority
      · rw [if_pos hle] at h
        cases h
        exact List.Perm.refl _
      · rw [if_neg hle] at h
        injection h with h4
        rw [Prod.mk.injEq] at h4
        obtain ⟨he, hrest⟩ := h4
        subst he
        subst hrest
        exact List.Perm.trans (List.Perm.cons a (ih h2)) (List.Perm.swap m a r2)

theorem popMin_min : ∀ {l : List PrioritizedItem} {e : PrioritizedItem}
    {rest : List PrioritizedItem},
    popMin l = some (e, rest) → ∀ x ∈ l, e.priority ≤ x.priority := by
  intro l
  induction l with
  | nil => intro e rest h; cases h
  | cons a t ih =>
    intro e rest h x hx
    rw [popMin] at h
    rcases h2 : popMin t with _ | ⟨m, r2⟩ <;> rw [h2] at h
    · cases h
      have ht := popMin_eq_none h2
      subst ht
      rcases List.mem_cons.mp hx with heq | hxt
      · rw [heq]
      · cases hxt
    · dsimp only at h
      by_cases hle : a.priority ≤ m.priority
      · rw [if_pos hle] at h
        cases h
        rcases List.mem_cons.mp hx with heq | hxt
        · rw [heq]
        · exact Nat.le_trans hle (ih h2 x hxt)
      · rw [if_neg hle] at h
        cases h
        rcases List.mem_cons.mp hx with heq | hxt
        · rw [heq]; omega
        · exact ih h2 x hxt

theorem lookupA_none_iff {β : Type} {l : List (Position × β)} {k : Position} :
    lookupA l k = none ↔ ∀ e ∈ l, e.1 ≠ k := by
  unfold lookupA
  rw [Option.map_eq_none']
  rw [List.find?_eq_none]
  constructor
  · intro h e he
    have := h e he
    simpa using this
  · intro h e he
    simpa using h e he

theorem insertA_length_of_none {β : Type} {l : List (Position × β)} {k : Position}
    (v : β) (h : lookupA l k = none) : (insertA l k v).length = l.length + 1 := by
  unfold insertA
  rw [List.length_cons]
  have : l.filter (fun e => e.1 != k) = l := by
    rw [List.filter_eq_self]
    intro e he
    simpa using (lookupA_none_iff.mp h) e he
  rw [this]

theorem filter_key_length {β : Type} :
    ∀ (l : List (Position × β)) (k : Position),
      (l.map (fun e => e.1)).Nodup → (lookupA l k).isSome →
      (l.filter fun e => e.1 != k).length + 1 = l.length := by
  intro l
  induction l with
  | nil => intro k _ h; simp [lookupA] at h
  | cons a t ih =>
    intro k hnd h
    rw [List.filter_cons]
    by_cases ha : a.1 = k
    · have h1 : (a.1 != k) = false := by simp [ha]
      rw [h1]
      have hnk : lookupA t k = none := by
        rw [lookupA_none_iff]
        intro e he hek
        have : a.1 ∈ t.map (fun e => e.1) := by
          rw [ha, ← hek]
          exact List.mem_map_of_mem _ he
        exact (List.nodup_cons.mp (by simpa using hnd)).1 this
      have : t.filter (fun e => e.1 != k) = t := by
        rw [List.filter_eq_self]
        intro e he
        simpa using (lookupA_none_iff.mp hnk) e he
      simp [this]
    · have h1 : (a.1 != k) = true := by simp [ha]
      rw [h1]
      have h2 : (lookupA t k).isSome := by
        unfold lookupA at h ⊢
        rw [List.find?_cons] at h
        have : (a.1 == k) = false := by simp [ha]
        rw [this] at h
        simpa using h
      have := ih k (List.nodup_cons.mp (by simpa using hnd)).2 h2
      rw [if_pos rfl, List.length_cons, List.length_cons]
      omega

theorem insertA_length_of_some {β : Type} {l : List (Position × β)} {k : Position}
    (v : β) (hnd : (l.map (fun e => e.1)).Nodup)
    (h : (lookupA l k).isSome) : (insertA l k v).length = l.length := by
  unfold insertA
  rw [List.length_cons]
  exact filter_key_length l k hnd h

theorem insertA_length_ge {β : Type} (l : List (Position × β)) (k : Position)
    (v : β) (hnd : (l.map (fun e => e.1)).Nodup) :
    l.length ≤ (insertA l k v).length := by
  rcases hk : lookupA l k with _ | v0
  · rw [insertA_length_of_none v hk]; omega
  · rw [insertA_length_of_some v hnd (by rw [hk]; rfl)]

theorem insertA_keys_nodup {β : Type} (l : List (Position × β)) (k : Position)
    (v : β) (hnd : (l.map (fun e => e.1)).Nodup) :
    ((insertA l k v).map (fun e => e.1)).Nodup := by
  unfold insertA
  rw [List.map_cons, List.nodup_cons]
  constructor
  · intro hmem
    obtain ⟨e, he, hek⟩ := List.mem_map.mp hmem
    have : (e.1 != k) = true := (List.mem_filter.mp he).2
    rw [hek] at this
    simp at this
  · exact List.Nodup.sublist (List.Sublist.map _ (List.filter_sublist l)) hnd

theorem lookupA_insertA_isSome {β : Type} {l : List (Position × β)}
    {k p : Position} (v : β) (h : (lookupA l p).isSome) :
    (lookupA (insertA l k v) p).isSome := by
  by_cases hp : p = k
  · subst hp; rw [lookupA_insertA_same]; rfl
  · rw [lookupA_insertA_ne _ _ hp]; exact h

theorem manhattan_self (a : Position) : manhattanDistance a a = 0 := by
  unfold manhattanDistance
  split_ifs <;> omega

theorem manhattan_comm (a b : Position) :
    manhattanDistance a b = manhattanDistance b a := by
  unfold manhattanDistance
  split_ifs <;> omega

theorem manhattan_triangle (a b c : Position) :
    manhattanDistance a c ≤ manhattanDistance a b + manhattanDistance b c := by
  unfold manhattanDistance
  split_ifs <;> omega

theorem manhattan_eq_zero {a b : Position} (h : manhattanDistance a b = 0) :
    a = b := by
  unfold manhattanDistance at h
  rcases a with ⟨ax, ay⟩
  rcases b with ⟨bx, by_⟩
  simp only at h
  split_ifs at h <;> (simp only [Position.mk.injEq]; omega)

/-- A Manhattan-distance-1 step is one of the four cardinal unit steps. -/
theorem manhattan_one_cases {p q : Position} (h : manhattanDistance p q = 1) :
    (q.x = p.x ∧ q.y = p.y + 1) ∨ (q.x = p.x ∧ q.y + 1 = p.y) ∨
    (q.x = p.x + 1 ∧ q.y = p.y) ∨ (q.x + 1 = p.x ∧ q.y = p.y) := by
  unfold manhattanDistance at h
  split_ifs at h <;> omega

theorem mem_gridPositions {w h : Nat} {p : Position} :
    p ∈ gridPositions w h ↔ p.x < w ∧ p.y < h := by
  unfold gridPositions
  rw [List.mem_map]
  constructor
  · rintro ⟨i, hi, rfl⟩
    rw [List.mem_range] at hi
    constructor
    · have hw : 0 < w := by
        rcases Nat.eq_zero_or_pos w with hw | hw
        · subst hw; simp at hi
        · exact hw
      exact Nat.mod_lt _ hw
    · exact Nat.div_lt_iff_lt_mul (by
        rcases Nat.eq_zero_or_pos w with hw | hw
        · subst hw; simp at hi
        · exact hw) |>.mpr (by
          rcases Nat.eq_zero_or_pos w with hw | hw
          · subst hw; simp at hi
          · calc i < w * h := hi
              _ = h * w := Nat.mul_comm _ _)
  · rintro ⟨hx, hy⟩
    refine ⟨p.y * w + p.x, ?_, ?_⟩
    · rw [List.mem_range]
      have := Grid.index_lt_length (g := Grid.new (0 : Nat) w h) (by simp [Grid.new, Grid.WF]) (x := p.x) (y := p.y) hx hy
      simpa [Grid.new] using this
    · have e1 : (p.y * w + p.x) % w = p.x := by
        rw [Nat.mul_comm, Nat.mul_add_mod, Nat.mod_eq_of_lt hx]
      have e2 : (p.y * w + p.x) / w = p.y := by
        rw [Nat.mul_comm, Nat.mul_add_div (by omega), Nat.div_eq_of_lt hx]
        omega
      rw [e1, e2]

theorem gridPositions_nodup (w h : Nat) : (gridPositions w h).Nodup := by
  unfold gridPositions
  apply List.Nodup.map_on _ (List.nodup_range _)
  intro i hi j hj heq
  rw [List.mem_range] at hi hj
  have hx : i % w = j % w := congrArg Position.x heq
  have hy : i / w = j / w := congrArg Position.y heq
  calc i = w * (i / w) + i % w := (Nat.div_add_mod i w).symm
    _ = w * (j / w) + j % w := by rw [hx, hy]
    _ = j := Nat.div_add_mod j w

theorem gridPositions_length (w h : Nat) : (gridPositions w h).length = w * h := by
  simp [gridPositions]

/-! ### Geodesic lemmas -/

theorem geo_zero (s g : Position) : geo s g 0 = s := by
  rcases s with ⟨sx, sy⟩
  rcases g with ⟨gx, gy⟩
  unfold geo geoX
  simp only [Nat.min_def, Position.mk.injEq]
  constructor <;> split_ifs <;> omega

theorem geo_last (s g : Position) : geo s g (manhattanDistance s g) = g := by
  rcases s with ⟨sx, sy⟩
  rcases g with ⟨gx, gy⟩
  unfold geo geoX manhattanDistance
  simp only [Nat.min_def, Position.mk.injEq]
  constructor <;> split_ifs <;> omega

theorem manhattan_start_geo (s g : Position) {i : Nat}
    (h : i ≤ manhattanDistance s g) : manhattanDistance s (geo s g i) = i := by
  rcases s with ⟨sx, sy⟩
  rcases g with ⟨gx, gy⟩
  unfold manhattanDistance geo geoX at *
  simp only [Nat.min_def] at *
  split_ifs at * <;> omega

theorem manhattan_geo_goal (s g : Position) {i : Nat}
    (h : i ≤ manhattanDistance s g) :
    manhattanDistance (geo s g i) g = manhattanDistance s g - i := by
  rcases s with ⟨sx, sy⟩
  rcases g with ⟨gx, gy⟩
  unfold manhattanDistance geo geoX at *
  simp only [Nat.min_def] at *
  split_ifs at * <;> omega

set_option maxHeartbeats 2000000 in
theorem geo_adjacent (s g : Position) {i : Nat}
    (h : i < manhattanDistance s g) :
    manhattanDistance (geo s g i) (geo s g (i + 1)) = 1 := by
  rcases s with ⟨sx, sy⟩
  rcases g with ⟨gx, gy⟩
  unfold manhattanDistance geo geoX at *
  simp only [Nat.min_def] at *
  split_ifs at * <;> omega

theorem geo_inbounds {w h : Nat} {s g : Position} (i : Nat)
    (hs : s.x < w ∧ s.y < h) (hg : g.x < w ∧ g.y < h) :
    (geo s g i).x < w ∧ (geo s g i).y < h := by
  rcases s with ⟨sx, sy⟩
  rcases g with ⟨gx, gy⟩
  unfold geo geoX
  simp only [Nat.min_def] at *
  constructor <;> split_ifs <;> omega

/-! ### Valid-neighbor characterizations -/

theorem checkedAddSigned_some {x : Nat} {d : Int} {r : Nat}
    (h : checkedAddSigned x d = some r) :
    (r : Int) = (x : Int) + d := by
  simp only [checkedAddSigned] at h
  split_ifs at h with hc
  injection h with h2
  rw [← h2]
  exact Int.toNat_of_nonneg hc.1

theorem checkedAddSigned_eval {x : Nat} {d : Int} (hlo : 0 ≤ (x : Int) + d)
    (hhi : (x : Int) + d < (usizeSize : Int)) :
    checkedAddSigned x d = some ((x : Int) + d).toNat := by
  unfold checkedAddSigned
  rw [if_pos ⟨hlo, hhi⟩]

/-- Every position produced by `get_valid_neighbors` is one cardinal step
away and in bounds (on any grid). -/
theorem mem_getValidNeighbors_general {view : EnvironmentView}
    {keys : List DoorKeyType} {p n : Position}
    (h : n ∈ getValidNeighbors p view keys) :
    manhattanDistance p n = 1 ∧
    n.x < view.terrain_grid.width ∧ n.y < view.terrain_grid.height := by
  obtain ⟨⟨dx, dy⟩, hdir, hf⟩ := List.mem_filterMap.mp h
  have hdir2 : (dx = 0 ∧ dy = 1) ∨ (dx = 0 ∧ dy = -1) ∨
      (dx = 1 ∧ dy = 0) ∨ (dx = -1 ∧ dy = 0) := by
    simpa [directions, Prod.ext_iff] using hdir
  have main : ∀ (hdx : dx = dx) ,
      (match checkedAddSigned p.x dx, checkedAddSigned p.y dy with
        | some nx, some ny =>
          if ¬ view.terrain_grid.isValid nx ny then none
          else if (view.agent_location_grid.get nx ny).join.isSome then none
          else
            match view.terrain_grid.get nx ny with
            | some CellType.Wall => none
            | some (CellType.Door false (some required_key)) =>
              if required_key ∈ keys then some ⟨nx, ny⟩ else none
            | some (CellType.Door false none) => some ⟨nx, ny⟩
            | some (CellType.Door true _) => some ⟨nx, ny⟩
            | some CellType.Floor => some ⟨nx, ny⟩
            | none => none
        | _, _ => none) = some n →
      ((n.x : Int) = (p.x : Int) + dx ∧ (n.y : Int) = (p.y : Int) + dy) ∧
      view.terrain_grid.isValid n.x n.y = true := by
    intro _ hbody
    rcases hcx : checkedAddSigned p.x dx with _ | nx <;> rw [hcx] at hbody
    · cases hbody
    · rcases hcy : checkedAddSigned p.y dy with _ | ny <;> rw [hcy] at hbody
      · cases hbody
      · dsimp only at hbody
        by_cases hval : view.terrain_grid.isValid nx ny = true
        · rw [if_neg (by rw [hval]; exact fun hc => hc rfl)] at hbody
          have hn : n = ⟨nx, ny⟩ := by
            by_cases hagq : (view.agent_location_grid.get nx ny).join.isSome
            · rw [if_pos hagq] at hbody; cases hbody
            · rw [if_neg hagq] at hbody
              rcases hterr : view.terrain_grid.get nx ny with _ | c <;>
                rw [hterr] at hbody
              · cases hbody
              · cases c with
                | Floor =>
                  dsimp only at hbody
                  exact (Option.some.inj hbody).symm
                | Wall =>
                  dsimp only at hbody
                  cases hbody
                | Door op dt =>
                  cases op with
                  | true =>
                    dsimp only at hbody
                    exact (Option.some.inj hbody).symm
                  | false =>
                    cases dt with
                    | none =>
                      dsimp only at hbody
                      exact (Option.some.inj hbody).symm
                    | some k =>
                      dsimp only at hbody
                      by_cases hk : k ∈ keys
                      · rw [if_pos hk] at hbody
                        exact (Option.some.inj hbody).symm
                      · rw [if_neg hk] at hbody
                        cases hbody
          subst hn
          exact ⟨⟨checkedAddSigned_some hcx, checkedAddSigned_some hcy⟩, hval⟩
        · rw [if_pos (by rw [Bool.not_eq_true] at hval; rw [hval]; simp)] at hbody
          cases hbody
  have hres := main rfl hf
  obtain ⟨⟨hxeq, hyeq⟩, hval⟩ := hres
  have hb := Grid.isValid_iff.mp hval
  refine ⟨?_, hb⟩
  rcases hdir2 with ⟨h1, h2⟩ | ⟨h1, h2⟩ | ⟨h1, h2⟩ | ⟨h1, h2⟩ <;>
    subst h1 <;> subst h2 <;>
    (rcases p with ⟨px, py⟩
     rcases n with ⟨nx2, ny2⟩
     unfold manhattanDistance
     dsimp only
     simp only at hxeq hyeq
     split_ifs <;> omega)

/-- On an open grid, every in-bounds cardinal neighbor is a valid
neighbor. -/
theorem mem_getValidNeighbors_open {view : EnvironmentView}
    {keys : List DoorKeyType} (hog : OpenGrid view) {p q : Position}
    (hp : p.x < view.terrain_grid.width ∧ p.y < view.terrain_grid.height)
    (hq : q.x < view.terrain_grid.width ∧ q.y < view.terrain_grid.height)
    (hsize : view.terrain_grid.width * view.terrain_grid.height < usizeSize)
    (hadj : manhattanDistance p q = 1) :
    q ∈ getValidNeighbors p view keys := by
  have hwpos : 1 ≤ view.terrain_grid.width := by omega
  have hhpos : 1 ≤ view.terrain_grid.height := by omega
  have hwle : view.terrain_grid.width ≤
      view.terrain_grid.width * view.terrain_grid.height :=
    Nat.le_mul_of_pos_right _ hhpos
  have hhle : view.terrain_grid.height ≤
      view.terrain_grid.width * view.terrain_grid.height :=
    Nat.le_mul_of_pos_left _ hwpos
  have hterr : view.terrain_grid.get q.x q.y = some CellType.Floor := by
    rw [Grid.get_eq, if_pos hq]
    have hidx := Grid.index_lt_length hog.wf hq.1 hq.2
    rcases hcell : view.terrain_grid.cells.get? (q.y * view.terrain_grid.width + q.x)
      with _ | c
    · rw [List.get?_eq_none] at hcell
      omega
    · rw [hog.allFloor c (List.get?_mem hcell)]
  have hagent : ((view.agent_location_grid.get q.x q.y).join).isSome = false := by
    rcases hget : view.agent_location_grid.get q.x q.y with _ | c
    · rfl
    · rw [hog.noAgents c (Grid.get_mem hget)]
      rfl
  have hval : view.terrain_grid.isValid q.x q.y = true := Grid.isValid_iff.mpr hq
  have hqx : q.x < usizeSize := by omega
  have hqy : q.y < usizeSize := by omega
  have hpx : p.x < usizeSize := by omega
  have hpy : p.y < usizeSize := by omega
  apply List.mem_filterMap.mpr
  rcases manhattan_one_cases hadj with ⟨hx, hy⟩ | ⟨hx, hy⟩ | ⟨hx, hy⟩ | ⟨hx, hy⟩
  · refine ⟨(0, 1), by simp [directions], ?_⟩
    have hcx : checkedAddSigned p.x 0 = some q.x := by
      rw [checkedAddSigned_eval (by omega) (by omega)]
      exact congrArg some (by omega)
    have hcy : checkedAddSigned p.y 1 = some q.y := by
      rw [checkedAddSigned_eval (by omega) (by omega)]
      exact congrArg some (by omega)
    generalize hd : ((0 : Int), (1 : Int)) = d
    obtain ⟨dx0, dy0⟩ := d
    rw [Prod.mk.injEq] at hd
    obtain ⟨h1, h2⟩ := hd
    rw [h1] at hcx
    rw [h2] at hcy
    dsimp only
    rw [hcx, hcy]
    dsimp only
    rw [if_neg (by rw [hval]; exact fun hc => hc rfl), if_neg (by rw [hagent]; simp),
      hterr]
  · refine ⟨(0, -1), by simp [directions], ?_⟩
    have hcx : checkedAddSigned p.x 0 = some q.x := by
      rw [checkedAddSigned_eval (by omega) (by omega)]
      exact congrArg some (by omega)
    have hcy : checkedAddSigned p.y (-1) = some q.y := by
      rw [checkedAddSigned_eval (by omega) (by omega)]
      exact congrArg some (by omega)
    generalize hd : ((0 : Int), (-1 : Int)) = d
    obtain ⟨dx0, dy0⟩ := d
    rw [Prod.mk.injEq] at hd
    obtain ⟨h1, h2⟩ := hd
    rw [h1] at hcx
    rw [h2] at hcy
    dsimp only
    rw [hcx, hcy]
    dsimp only
    rw [if_neg (by rw [hval]; exact fun hc => hc rfl), if_neg (by rw [hagent]; simp),
      hterr]
  · refine ⟨(1, 0), by simp [directions], ?_⟩
    have hcx : checkedAddSigned p.x 1 = some q.x := by
      rw [checkedAddSigned_eval (by omega) (by omega)]
      exact congrArg some (by omega)
    have hcy : checkedAddSigned p.y 0 = some q.y := by
      rw [checkedAddSigned_eval (by omega) (by omega)]
      exact congrArg some (by omega)
    generalize hd : ((1 : Int), (0 : Int)) = d
    obtain ⟨dx0, dy0⟩ := d
    rw [Prod.mk.injEq] at hd
    obtain ⟨h1, h2⟩ := hd
    rw [h1] at hcx
    rw [h2] at hcy
    dsimp only
    rw [hcx, hcy]
    dsimp only
    rw [if_neg (by rw [hval]; exact fun hc => hc rfl), if_neg (by rw [hagent]; simp),
      hterr]
  · refine ⟨(-1, 0), by simp [directions], ?_⟩
    have hcx : checkedAddSigned p.x (-1) = some q.x := by
      rw [checkedAddSigned_eval (by omega) (by omega)]
      exact congrArg some (by omega)
    have hcy : checkedAddSigned p.y 0 = some q.y := by
      rw [checkedAddSigned_eval (by omega) (by omega)]
      exact congrArg some (by omega)
    generalize hd : ((-1 : Int), (0 : Int)) = d
    obtain ⟨dx0, dy0⟩ := d
    rw [Prod.mk.injEq] at hd
    obtain ⟨h1, h2⟩ := hd
    rw [h1] at hcx
    rw [h2] at hcy
    dsimp only
    rw [hcx, hcy]
    dsimp only
    rw [if_neg (by rw [hval]; exact fun hc => hc rfl), if_neg (by rw [hagent]; simp),
      hterr]

/-! ### Association-list and measure toolkit for the C5 (A* optimality)
development -/

theorem lookupA_singleton {β : Type} {a k : Position} {b v : β} :
    lookupA [(a, b)] k = some v ↔ k = a ∧ v = b := by
  unfold lookupA
  rw [List.find?_cons]
  by_cases h : a = k
  · have hb : ((a, b).1 == k) = true := by simp [h]
    rw [hb]
    simp only [cond_true, Option.map_some]
    constructor
    · intro hv
      exact ⟨h.symm, (Option.some.inj hv).symm⟩
    · rintro ⟨h1, h2⟩
      rw [h2]
      rfl
  · have hb : ((a, b).1 == k) = false := by simp [h]
    rw [hb]
    simp only [cond_false, List.find?_nil, Option.map_none]
    constructor
    · intro hv
      cases hv
    · rintro ⟨h1, h2⟩
      exact absurd h1.symm h

theorem lookupA_of_mem_nodup {β : Type} :
    ∀ {l : List (Position × β)} {k : Position} {v : β},
      (l.map (fun e => e.1)).Nodup → (k, v) ∈ l → lookupA l k = some v := by
  intro l
  induction l with
  | nil => intro k v _ hm; cases hm
  | cons a t ih =>
    intro k v hnd hm
    unfold lookupA
    rw [List.find?_cons]
    rcases List.mem_cons.mp hm with heq | ht
    · rw [← heq]
      have hb : (((k, v) : Position × β).1 == k) = true := by simp
      rw [hb]
      rfl
    · by_cases hak : a.1 = k
      · exfalso
        have hkm : k ∈ t.map (fun e => e.1) := by
          have := List.mem_map_of_mem (fun (e : Position × β) => e.1) ht
          simpa using this
        rw [List.map_cons, List.nodup_cons] at hnd
        exact hnd.1 (hak ▸ hkm)
      · have hb : (a.1 == k) = false := by simpa using hak
        rw [hb]
        have ht2 := ih (List.nodup_cons.mp (by simpa using hnd)).2 ht
        unfold lookupA at ht2
        simpa using ht2

theorem assoc_length_le {w h : Nat} {l : List (Position × Nat)}
    (hnd : (l.map (fun e => e.1)).Nodup)
    (hin : ∀ p v, lookupA l p = some v → p.x < w ∧ p.y < h) :
    l.length ≤ w * h := by
  have hsub : (l.map (fun e => e.1)) ⊆ gridPositions w h := by
    intro k hk
    obtain ⟨e, he, hek⟩ := List.mem_map.mp hk
    have hme : ((e.1, e.2) : Position × Nat) ∈ l := by
      rw [Prod.mk.eta]
      exact he
    have hlk : lookupA l e.1 = some e.2 := lookupA_of_mem_nodup hnd hme
    rw [mem_gridPositions]
    exact hek ▸ hin e.1 e.2 hlk
  calc l.length = (l.map (fun e => e.1)).length := (List.length_map _ _).symm
    _ ≤ (gridPositions w h).length := (hnd.subperm hsub).length_le
    _ = w * h := gridPositions_length w h

theorem sum_map_update (f g : Position → Nat) :
    ∀ {l : List Position}, l.Nodup → ∀ {n : Position}, n ∈ l →
      (∀ p ∈ l, p ≠ n → g p = f p) →
      (l.map g).sum + f n = (l.map f).sum + g n := by
  intro l
  induction l with
  | nil => intro _ n hn; cases hn
  | cons a t ih =>
    intro hnd n hn hsame
    rw [List.map_cons, List.map_cons, List.sum_cons, List.sum_cons]
    rcases List.mem_cons.mp hn with heq | ht
    · subst heq
      have htail : t.map g = t.map f := by
        apply List.map_congr_left
        intro p hp
        exact hsame p (List.mem_cons_of_mem _ hp)
          (fun hpn => (List.nodup_cons.mp hnd).1 (hpn ▸ hp))
      rw [htail]
      omega
    · have han : a ≠ n := fun hh => (List.nodup_cons.mp hnd).1 (hh ▸ ht)
      have hfa : g a = f a := hsame a (List.mem_cons_self _ _) han
      have hrec := ih (List.nodup_cons.mp hnd).2 ht
        (fun p hp hpn => hsame p (List.mem_cons_of_mem _ hp) hpn)
      omega

theorem costVal_le {l : List (Position × Nat)} {cap : Nat}
    (hb : ∀ p v, lookupA l p = some v → v ≤ cap) (p : Position) :
    costVal l cap p ≤ cap := by
  unfold costVal
  rcases hl : lookupA l p with _ | v
  · simp
  · simpa using hb p v hl

/-- One relaxation either leaves the state unchanged (the recorded cost of
the neighbor is already at most `new_cost`) or performs the full update. -/
theorem relaxNeighbor_eq (goal cur : Position) (st : AStarState) (n : Position)
    {vcur : Nat} (hcur : lookupA st.cost_so_far cur = some vcur) :
    (relaxNeighbor goal cur st n = st ∧
      ∃ c, lookupA st.cost_so_far n = some c ∧ c ≤ vcur + 1) ∨
    (relaxNeighbor goal cur st n =
      { frontier :=
          { priority := vcur + 1 + manhattanDistance n goal, position := n } ::
            st.frontier,
        came_from := insertA st.came_from n cur,
        cost_so_far := insertA st.cost_so_far n (vcur + 1) } ∧
      (lookupA st.cost_so_far n = none ∨
        ∃ c, lookupA st.cost_so_far n = some c ∧ vcur + 1 < c)) := by
  simp only [relaxNeighbor, hcur, Option.getD_some]
  rcases hn : lookupA st.cost_so_far n with _ | c
  · right
    refine ⟨?_, Or.inl rfl⟩
    simp
  · by_cases hc : vcur + 1 < c
    · right
      refine ⟨?_, Or.inr ⟨c, rfl, hc⟩⟩
      simp [hc]
    · left
      refine ⟨?_, ⟨c, rfl, by omega⟩⟩
      simp [hc]

/-- A single relaxation of an in-bounds cardinal neighbor preserves the
pop-stable part of the search invariant. -/
theorem PreAStarInv_relax {view : EnvironmentView} {keys : List DoorKeyType}
    {start goal : Position} {st : AStarState}
    (pre : PreAStarInv view keys start goal st) {cur n : Position} {vcur : Nat}
    (hcur : lookupA st.cost_so_far cur = some vcur)
    (hm : manhattanDistance cur n = 1)
    (hnx : n.x < view.terrain_grid.width)
    (hny : n.y < view.terrain_grid.height) :
    PreAStarInv view keys start goal (relaxNeighbor goal cur st n) := by
  have hcurn : cur ≠ n := by
    intro hh
    rw [hh, manhattan_self] at hm
    omega
  rcases relaxNeighbor_eq goal cur st n hcur with ⟨heq, _⟩ | ⟨heq, hold⟩
  · rw [heq]
    exact pre
  · rw [heq]
    have hlbn : manhattanDistance start n ≤ vcur + 1 := by
      have h1 := manhattan_triangle start cur n
      have h2 := pre.cost_lb cur vcur hcur
      omega
    have hnstart : n ≠ start := by
      intro hns
      rw [hns] at hold
      rcases hold with hnone | ⟨c, hc, hlt⟩
      · rw [pre.cost_start] at hnone
        cases hnone
      · rw [pre.cost_start] at hc
        injection hc with hc2
        omega
    refine ⟨?_, ?_, ?_, ?_, ?_, ?_, ?_, ?_, ?_⟩
    · dsimp only
      rw [lookupA_insertA_ne _ _ (Ne.symm hnstart)]
      exact pre.cost_start
    · intro p v hp
      dsimp only at hp
      by_cases hpn : p = n
      · subst hpn
        rw [lookupA_insertA_same] at hp
        injection hp with hp2
        rw [← hp2]
        exact hlbn
      · rw [lookupA_insertA_ne _ _ hpn] at hp
        exact pre.cost_lb p v hp
    · intro p v hp
      dsimp only at hp
      by_cases hpn : p = n
      · subst hpn
        exact ⟨hnx, hny⟩
      · rw [lookupA_insertA_ne _ _ hpn] at hp
        exact pre.cost_inbounds p v hp
    · dsimp only
      exact insertA_keys_nodup _ _ _ pre.keys_nodup
    · intro p v hp
      dsimp only at hp ⊢
      rcases hold with hnone | ⟨c, hc, hlt⟩
      · rw [insertA_length_of_none _ hnone]
        by_cases hpn : p = n
        · subst hpn
          rw [lookupA_insertA_same] at hp
          injection hp with hp2
          have := pre.cost_bound cur vcur hcur
          omega
        · rw [lookupA_insertA_ne _ _ hpn] at hp
          have := pre.cost_bound p v hp
          omega
      · rw [insertA_length_of_some _ pre.keys_nodup (by rw [hc]; rfl)]
        by_cases hpn : p = n
        · subst hpn
          rw [lookupA_insertA_same] at hp
          injection hp with hp2
          have := pre.cost_bound _ c hc
          omega
        · rw [lookupA_insertA_ne _ _ hpn] at hp
          exact pre.cost_bound p v hp
    · intro e he
      dsimp only at he ⊢
      rcases List.mem_cons.mp he with heq2 | ht
      · rw [heq2]
        dsimp only
        rw [lookupA_insertA_same]
        rfl
      · exact lookupA_insertA_isSome _ (pre.frontier_cost e ht)
    · intro e he hegoal
      dsimp only at he ⊢
      rcases List.mem_cons.mp he with heq2 | ht
      · subst heq2
        dsimp only at hegoal ⊢
        rw [← hegoal, lookupA_insertA_same]
        refine ⟨vcur + 1, rfl, ?_⟩
        rw [manhattan_self]
      · obtain ⟨v0, hv0, hle0⟩ := pre.goal_entries e ht hegoal
        by_cases hgn : goal = n
        · rw [hgn, lookupA_insertA_same]
          refine ⟨vcur + 1, rfl, ?_⟩
          rcases hold with hnone | ⟨c, hc, hlt⟩
          · rw [hgn, hnone] at hv0
            cases hv0
          · rw [hgn, hc] at hv0
            injection hv0 with hv2
            omega
        · rw [lookupA_insertA_ne _ _ hgn]
          exact ⟨v0, hv0, hle0⟩
    · intro p c0 hp
      dsimp only at hp ⊢
      by_cases hpn : p = n
      · subst hpn
        rw [lookupA_insertA_same] at hp
        injection hp with hp2
        rw [← hp2]
        refine ⟨vcur + 1, vcur, ?_, ?_, by omega, hm⟩
        · rw [lookupA_insertA_same]
        · rw [lookupA_insertA_ne _ _ hcurn]
          exact hcur
      · rw [lookupA_insertA_ne _ _ hpn] at hp
        obtain ⟨vp, vc, hvp, hvc, hle2, hm2⟩ := pre.cf_edge p c0 hp
        by_cases hcn : c0 = n
        · subst hcn
          rcases hold with hnone | ⟨c, hc, hlt⟩
          · rw [hnone] at hvc
            cases hvc
          · rw [hc] at hvc
            injection hvc with hvc2
            refine ⟨vp, vcur + 1, ?_, lookupA_insertA_same _ _ _, by omega, hm2⟩
            rw [lookupA_insertA_ne _ _ hpn]
            exact hvp
        · refine ⟨vp, vc, ?_, ?_, hle2, hm2⟩
          · rw [lookupA_insertA_ne _ _ hpn]
            exact hvp
          · rw [lookupA_insertA_ne _ _ hcn]
            exact hvc
    · intro p v hp hpstart
      dsimp only at hp ⊢
      by_cases hpn : p = n
      · subst hpn
        rw [lookupA_insertA_same]
        rfl
      · rw [lookupA_insertA_ne _ _ hpn] at hp
        rw [lookupA_insertA_ne _ _ hpn]
        exact pre.cf_exists p v hp hpstart

/-- One relaxation never increases the loop measure: a push to the frontier
is always paid for by a strict decrease of the recorded cost at the relaxed
cell. -/
theorem measure_relax_le {view : EnvironmentView} {keys : List DoorKeyType}
    {start goal : Position} {st : AStarState}
    (pre : PreAStarInv view keys start goal st) {cur n : Position} {vcur : Nat}
    (hcur : lookupA st.cost_so_far cur = some vcur)
    (hm : manhattanDistance cur n = 1)
    (hnx : n.x < view.terrain_grid.width)
    (hny : n.y < view.terrain_grid.height) :
    stateMeasure view.terrain_grid.width view.terrain_grid.height
        (relaxNeighbor goal cur st n) ≤
      stateMeasure view.terrain_grid.width view.terrain_grid.height st := by
  have pre2 := PreAStarInv_relax pre hcur hm hnx hny
  rcases relaxNeighbor_eq goal cur st n hcur with ⟨heq, _⟩ | ⟨heq, hold⟩
  · rw [heq]
  · have hnew : lookupA (relaxNeighbor goal cur st n).cost_so_far n =
        some (vcur + 1) := by
      rw [heq]
      dsimp only
      rw [lookupA_insertA_same]
    have hb := pre2.cost_bound n (vcur + 1) hnew
    have hlen2 : (relaxNeighbor goal cur st n).cost_so_far.length ≤
        view.terrain_grid.width * view.terrain_grid.height :=
      assoc_length_le pre2.keys_nodup pre2.cost_inbounds
    rw [heq] at hb hlen2
    dsimp only at hb hlen2
    have hsame : ∀ p ∈ gridPositions view.terrain_grid.width
        view.terrain_grid.height, p ≠ n →
        costVal (insertA st.cost_so_far n (vcur + 1))
            (view.terrain_grid.width * view.terrain_grid.height) p =
          costVal st.cost_so_far
            (view.terrain_grid.width * view.terrain_grid.height) p := by
      intro p _ hpn
      unfold costVal
      rw [lookupA_insertA_ne _ _ hpn]
    have hupd := sum_map_update
      (costVal st.cost_so_far
        (view.terrain_grid.width * view.terrain_grid.height))
      (costVal (insertA st.cost_so_far n (vcur + 1))
        (view.terrain_grid.width * view.terrain_grid.height))
      (gridPositions_nodup view.terrain_grid.width view.terrain_grid.height)
      (mem_gridPositions.mpr ⟨hnx, hny⟩) hsame
    have hfn2 : costVal (insertA st.cost_so_far n (vcur + 1))
        (view.terrain_grid.width * view.terrain_grid.height) n = vcur + 1 := by
      unfold costVal
      rw [lookupA_insertA_same]
      rfl
    have hdec : costVal (insertA st.cost_so_far n (vcur + 1))
        (view.terrain_grid.width * view.terrain_grid.height) n + 1 ≤
        costVal st.cost_so_far
          (view.terrain_grid.width * view.terrain_grid.height) n := by
      rw [hfn2]
      unfold costVal
      rcases hold with hnone | ⟨c, hc, hlt⟩
      · rw [hnone]
        simp only [Option.getD_none]
        omega
      · rw [hc]
        simp only [Option.getD_some]
        omega
    rw [heq]
    unfold stateMeasure
    dsimp only
    rw [List.length_cons]
    omega

/-- Relaxing every valid neighbor of the popped cell preserves the
pop-stable invariant and the recorded cost of the popped cell, only grows
the frontier, keeps every exact (Manhattan-optimal) cost entry, pushes a
matching frontier entry for every new cost entry, records the exact cost of
any neighbor one step beyond the popped cell's exact cost, and never
increases the loop measure. -/
theorem fold_relax_props {view : EnvironmentView} {keys : List DoorKeyType}
    {start goal cur : Position} {vcur : Nat} :
    ∀ (ns : List Position) (st : AStarState),
      PreAStarInv view keys start goal st →
      lookupA st.cost_so_far cur = some vcur →
      (∀ n ∈ ns, manhattanDistance cur n = 1 ∧
        n.x < view.terrain_grid.width ∧ n.y < view.terrain_grid.height) →
      PreAStarInv view keys start goal
        (ns.foldl (relaxNeighbor goal cur) st) ∧
      lookupA (ns.foldl (relaxNeighbor goal cur) st).cost_so_far cur =
        some vcur ∧
      (∀ f ∈ st.frontier, f ∈ (ns.foldl (relaxNeighbor goal cur) st).frontier) ∧
      (∀ p, lookupA st.cost_so_far p = some (manhattanDistance start p) →
        lookupA (ns.foldl (relaxNeighbor goal cur) st).cost_so_far p =
          some (manhattanDistance start p)) ∧
      (∀ p v,
        lookupA (ns.foldl (relaxNeighbor goal cur) st).cost_so_far p = some v →
        lookupA st.cost_so_far p = some v ∨
        ∃ f ∈ (ns.foldl (relaxNeighbor goal cur) st).frontier,
          f.position = p ∧ f.priority = v + manhattanDistance p goal) ∧
      (∀ n0 ∈ ns, manhattanDistance start n0 = vcur + 1 →
        lookupA (ns.foldl (relaxNeighbor goal cur) st).cost_so_far n0 =
          some (vcur + 1)) ∧
      stateMeasure view.terrain_grid.width view.terrain_grid.height
          (ns.foldl (relaxNeighbor goal cur) st) ≤
        stateMeasure view.terrain_grid.width view.terrain_grid.height st := by
  intro ns
  induction ns with
  | nil =>
    intro st pre hcur _
    exact ⟨pre, hcur, fun f hf => hf, fun p hp => hp,
      fun p v hv => Or.inl hv, fun n0 h0 => absurd h0 (List.not_mem_nil _),
      le_refl _⟩
  | cons n ns ih =>
    intro st pre hcur hns
    rw [List.foldl_cons]
    obtain ⟨hm, hnx, hny⟩ := hns n (List.mem_cons_self _ _)
    have hcurn : cur ≠ n := by
      intro hh
      rw [hh, manhattan_self] at hm
      omega
    have pre2 : PreAStarInv view keys start goal (relaxNeighbor goal cur st n) :=
      PreAStarInv_relax pre hcur hm hnx hny
    have hcur2 : lookupA (relaxNeighbor goal cur st n).cost_so_far cur =
        some vcur := by
      rcases relaxNeighbor_eq goal cur st n hcur with ⟨heq, _⟩ | ⟨heq, _⟩
      · rw [heq]
        exact hcur
      · rw [heq]
        dsimp only
        rw [lookupA_insertA_ne _ _ hcurn]
        exact hcur
    have hfr2 : ∀ f ∈ st.frontier, f ∈ (relaxNeighbor goal cur st n).frontier := by
      intro f hf
      rcases relaxNeighbor_eq goal cur st n hcur with ⟨heq, _⟩ | ⟨heq, _⟩
      · rw [heq]
        exact hf
      · rw [heq]
        exact List.mem_cons_of_mem _ hf
    have hex2 : ∀ p, lookupA st.cost_so_far p = some (manhattanDistance start p) →
        lookupA (relaxNeighbor goal cur st n).cost_so_far p =
          some (manhattanDistance start p) := by
      intro p hp
      rcases relaxNeighbor_eq goal cur st n hcur with ⟨heq, _⟩ | ⟨heq, hold⟩
      · rw [heq]
        exact hp
      · rw [heq]
        dsimp only
        by_cases hpn : p = n
        · subst hpn
          rcases hold with hnone | ⟨c, hc, hlt⟩
          · rw [hp] at hnone
            cases hnone
          · rw [hp] at hc
            injection hc with hc2
            have h1 := manhattan_triangle start cur p
            have h2 := pre.cost_lb cur vcur hcur
            omega
        · rw [lookupA_insertA_ne _ _ hpn]
          exact hp
    have hwit2 : ∀ p v,
        lookupA (relaxNeighbor goal cur st n).cost_so_far p = some v →
        lookupA st.cost_so_far p = some v ∨
        ∃ f ∈ (relaxNeighbor goal cur st n).frontier,
          f.position = p ∧ f.priority = v + manhattanDistance p goal := by
      intro p v hp
      rcases relaxNeighbor_eq goal cur st n hcur with ⟨heq, _⟩ | ⟨heq, _⟩
      · rw [heq] at hp
        exact Or.inl hp
      · rw [heq] at hp ⊢
        dsimp only at hp ⊢
        by_cases hpn : p = n
        · subst hpn
          rw [lookupA_insertA_same] at hp
          injection hp with hp2
          right
          refine ⟨_, List.mem_cons_self _ _, rfl, ?_⟩
          rw [hp2]
        · rw [lookupA_insertA_ne _ _ hpn] at hp
          exact Or.inl hp
    have hme2 := measure_relax_le pre hcur hm hnx hny
    obtain ⟨P2, C2, Fr2, F32, F52, F42, M2⟩ :=
      ih (relaxNeighbor goal cur st n) pre2 hcur2
        (fun q hq => hns q (List.mem_cons_of_mem _ hq))
    refine ⟨P2, C2, ?_, ?_, ?_, ?_, le_trans M2 hme2⟩
    · exact fun f hf => Fr2 f (hfr2 f hf)
    · exact fun p hp => F32 p (hex2 p hp)
    · intro p v hp
      rcases F52 p v hp with h1 | h2
      · rcases hwit2 p v h1 with h3 | ⟨f, hf, hfp, hfq⟩
        · exact Or.inl h3
        · exact Or.inr ⟨f, Fr2 f hf, hfp, hfq⟩
      · exact Or.inr h2
    · intro n0 hn0 hmn0
      rcases List.mem_cons.mp hn0 with heq0 | ht0
      · subst heq0
        have hstep : lookupA (relaxNeighbor goal cur st n0).cost_so_far n0 =
            some (manhattanDistance start n0) := by
          rcases relaxNeighbor_eq goal cur st n0 hcur with
            ⟨heq, c, hc, hle⟩ | ⟨heq, _⟩
          · rw [heq]
            have := pre.cost_lb n0 c hc
            have hceq : c = vcur + 1 := by omega
            rw [hc, hceq, hmn0]
          · rw [heq]
            dsimp only
            rw [lookupA_insertA_same, hmn0]
        have hfin := F32 n0 hstep
        rw [hmn0] at hfin
        exact hfin
      · exact F42 n0 ht0 hmn0

/-- While the full invariant holds, the frontier always contains an entry
whose priority is at most `manhattanDistance start goal`: follow `inv8`
along the canonical geodesic from the start. -/
theorem frontier_witness {view : EnvironmentView} {keys : List DoorKeyType}
    {start goal : Position} {st : AStarState}
    (inv : AStarInv view keys start goal st) :
    ∃ f ∈ st.frontier, f.priority ≤ manhattanDistance start goal := by
  have key : ∀ (j k : Nat), k ≤ manhattanDistance start goal →
      manhattanDistance start goal - k ≤ j →
      lookupA st.cost_so_far (geo start goal k) = some k →
      ∃ f ∈ st.frontier, f.priority ≤ manhattanDistance start goal := by
    intro j
    induction j with
    | zero =>
      intro k hk hdk hco
      rcases inv.inv8 k hk hco with ⟨f, hf, _, hfle⟩ | ⟨hlt, _⟩
      · exact ⟨f, hf, hfle⟩
      · exact absurd hlt (by omega)
    | succ j ihj =>
      intro k hk hdk hco
      rcases inv.inv8 k hk hco with ⟨f, hf, _, hfle⟩ | ⟨hlt, hnext⟩
      · exact ⟨f, hf, hfle⟩
      · exact ihj (k + 1) hlt (by omega) hnext
  apply key (manhattanDistance start goal) 0 (Nat.zero_le _) (by omega)
  rw [geo_zero]
  exact inv.cost_start

/-- With the invariant established and fuel exceeding the loop measure, the
A* loop pops the goal: it returns `reached` with the goal's recorded cost
exactly the Manhattan distance, and the pop-stable invariant intact. -/
theorem aStarLoop_reaches {view : EnvironmentView} {keys : List DoorKeyType}
    {start goal : Position} (hog : OpenGrid view)
    (hs : start.x < view.terrain_grid.width ∧
      start.y < view.terrain_grid.height)
    (hg : goal.x < view.terrain_grid.width ∧ goal.y < view.terrain_grid.height)
    (hsize : view.terrain_grid.width * view.terrain_grid.height < usizeSize) :
    ∀ (fuel : Nat) (st : AStarState),
      AStarInv view keys start goal st →
      stateMeasure view.terrain_grid.width view.terrain_grid.height st < fuel →
      ∃ st2, aStarLoop view keys goal fuel st = LoopOutcome.reached st2 ∧
        PreAStarInv view keys start goal st2 ∧
        lookupA st2.cost_so_far goal = some (manhattanDistance start goal) := by
  intro fuel
  induction fuel with
  | zero =>
    intro st _ hmeas
    omega
  | succ fuel ihf =>
    intro st inv hmeas
    obtain ⟨fw, hfw, hfwle⟩ := frontier_witness inv
    rcases hpop : popMin st.frontier with _ | ⟨e, rest⟩
    · have hnil := popMin_eq_none hpop
      rw [hnil] at hfw
      cases hfw
    · have hperm := popMin_perm hpop
      have hemem : e ∈ st.frontier :=
        (hperm.mem_iff).mpr (List.mem_cons_self _ _)
      have hrestlen : rest.length + 1 = st.frontier.length := by
        have hle := hperm.length_eq
        simp at hle
        omega
      have pre1 : PreAStarInv view keys start goal
          { st with frontier := rest } :=
        ⟨inv.cost_start, inv.cost_lb, inv.cost_inbounds, inv.keys_nodup,
          inv.cost_bound,
          fun f hf => inv.frontier_cost f
            ((hperm.mem_iff).mpr (List.mem_cons_of_mem _ hf)),
          fun f hf hfg => inv.goal_entries f
            ((hperm.mem_iff).mpr (List.mem_cons_of_mem _ hf)) hfg,
          inv.cf_edge, inv.cf_exists⟩
      by_cases hegoal : e.position = goal
      · refine ⟨{ st with frontier := rest }, ?_, pre1, ?_⟩
        · show aStarLoop view keys goal (fuel + 1) st =
            LoopOutcome.reached { st with frontier := rest }
          simp only [aStarLoop]
          rw [hpop]
          dsimp only
          rw [if_pos hegoal]
        · obtain ⟨v, hv, hvle⟩ := inv.goal_entries e hemem hegoal
          have hlb := inv.cost_lb goal v hv
          have hmin := popMin_min hpop fw hfw
          have hveq : v = manhattanDistance start goal := by omega
          rw [hveq] at hv
          exact hv
      · have hcurS := inv.frontier_cost e hemem
        obtain ⟨vcur, hvcur⟩ :
            ∃ v, lookupA st.cost_so_far e.position = some v := by
          rcases h2 : lookupA st.cost_so_far e.position with _ | v
          · rw [h2] at hcurS
            cases hcurS
          · exact ⟨v, rfl⟩
        have hcurb := inv.cost_inbounds e.position vcur hvcur
        have hns : ∀ n ∈ getValidNeighbors e.position view keys,
            manhattanDistance e.position n = 1 ∧
            n.x < view.terrain_grid.width ∧
            n.y < view.terrain_grid.height :=
          fun q hq => mem_getValidNeighbors_general hq
        have hcur1 : lookupA ({ st with frontier := rest } :
            AStarState).cost_so_far e.position = some vcur := hvcur
        obtain ⟨P2, C2, Fr2, F32, F52, F42, M2⟩ :=
          fold_relax_props (getValidNeighbors e.position view keys)
            { st with frontier := rest } pre1 hcur1 hns
        obtain ⟨st2, hst2⟩ :
            ∃ q, q = (getValidNeighbors e.position view keys).foldl
              (relaxNeighbor goal e.position) { st with frontier := rest } :=
          ⟨_, rfl⟩
        rw [← hst2] at P2 C2 Fr2 F32 F52 F42 M2
        have inv82 : ∀ i, i ≤ manhattanDistance start goal →
            lookupA st2.cost_so_far (geo start goal i) = some i →
            (∃ f ∈ st2.frontier, f.position = geo start goal i ∧
              f.priority ≤ manhattanDistance start goal) ∨
            (i < manhattanDistance start goal ∧
              lookupA st2.cost_so_far (geo start goal (i + 1)) =
                some (i + 1)) := by
          intro i hi hco
          by_cases hgeoi : geo start goal i = e.position
          · right
            have hine : i < manhattanDistance start goal := by
              rcases Nat.lt_or_ge i (manhattanDistance start goal) with h1 | h2
              · exact h1
              · exfalso
                have hieq : i = manhattanDistance start goal := by omega
                rw [hieq, geo_last] at hgeoi
                exact hegoal hgeoi.symm
            refine ⟨hine, ?_⟩
            rw [hgeoi] at hco
            rw [C2] at hco
            injection hco with hvi
            have hadj : manhattanDistance e.position
                (geo start goal (i + 1)) = 1 := by
              rw [← hgeoi]
              exact geo_adjacent start goal hine
            have hnb2 := geo_inbounds (w := view.terrain_grid.width)
              (h := view.terrain_grid.height) (i + 1) hs hg
            have hmem2 : geo start goal (i + 1) ∈
                getValidNeighbors e.position view keys :=
              mem_getValidNeighbors_open hog ⟨hcurb.1, hcurb.2⟩ hnb2 hsize hadj
            have hms : manhattanDistance start (geo start goal (i + 1)) =
                vcur + 1 := by
              rw [manhattan_start_geo start goal
                (by omega : i + 1 ≤ manhattanDistance start goal)]
              omega
            have hF4 := F42 _ hmem2 hms
            rw [hvi] at hF4
            exact hF4
          · rcases F52 _ _ hco with hold1 | ⟨f, hf2, hfpos, hfpr⟩
            · rcases inv.inv8 i hi hold1 with
                ⟨f, hfmem, hfpos, hfle⟩ | ⟨hlt, hnext⟩
              · left
                have hfe : f ≠ e := by
                  intro hh
                  rw [hh] at hfpos
                  exact hgeoi hfpos.symm
                have hfrest : f ∈ rest := by
                  have hfm := (hperm.mem_iff).mp hfmem
                  rcases List.mem_cons.mp hfm with h1 | h1
                  · exact absurd h1 hfe
                  · exact h1
                exact ⟨f, Fr2 f hfrest, hfpos, hfle⟩
              · right
                refine ⟨hlt, ?_⟩
                have hex : lookupA st.cost_so_far (geo start goal (i + 1)) =
                    some (manhattanDistance start (geo start goal (i + 1))) := by
                  rw [manhattan_start_geo start goal
                    (by omega : i + 1 ≤ manhattanDistance start goal)]
                  exact hnext
                have hF3 := F32 _ hex
                rw [manhattan_start_geo start goal
                  (by omega : i + 1 ≤ manhattanDistance start goal)] at hF3
                exact hF3
            · left
              refine ⟨f, hf2, hfpos, ?_⟩
              rw [hfpr]
              have hgg := manhattan_geo_goal start goal hi
              omega
        have Inv2 : AStarInv view keys start goal st2 := ⟨P2, inv82⟩
        have hms1 : stateMeasure view.terrain_grid.width
              view.terrain_grid.height { st with frontier := rest } + 1 =
            stateMeasure view.terrain_grid.width view.terrain_grid.height
              st := by
          unfold stateMeasure
          dsimp only
          omega
        have hmeas2 : stateMeasure view.terrain_grid.width
            view.terrain_grid.height st2 < fuel := by omega
        obtain ⟨stf, hloop, hpre, hcost⟩ := ihf st2 Inv2 hmeas2
        refine ⟨stf, ?_, hpre, hcost⟩
        show aStarLoop view keys goal (fuel + 1) st = LoopOutcome.reached stf
        simp only [aStarLoop]
        rw [hpop]
        dsimp only
        rw [if_neg hegoal, ← hst2]
        exact hloop

/-- Walking `came_from` from any costed cell reaches `start`, and the
number of positions accumulated is pinched between the Manhattan distance
(each parent step moves one cell) and the recorded cost (each parent step
strictly decreases the recorded cost). -/
theorem reconstruct_exact {cf : List (Position × Position)}
    {cost : List (Position × Nat)} {start : Position}
    (hstart : lookupA cost start = some 0)
    (hedge : ∀ p c, lookupA cf p = some c →
      ∃ vp vc, lookupA cost p = some vp ∧ lookupA cost c = some vc ∧
        vc + 1 ≤ vp ∧ manhattanDistance c p = 1)
    (hex : ∀ p v, lookupA cost p = some v → p ≠ start →
      (lookupA cf p).isSome) :
    ∀ (fuel v : Nat) (p : Position) (acc : List Position),
      lookupA cost p = some v → v + 1 ≤ fuel →
      ∃ res, reconstructPath cf start fuel p acc = some res ∧
        acc.length + manhattanDistance start p ≤ res.length ∧
        res.length ≤ acc.length + v := by
  intro fuel
  induction fuel with
  | zero =>
    intro v p acc _ hfuel
    omega
  | succ f ihf =>
    intro v p acc hp hfuel
    by_cases hps : p = start
    · subst hps
      rw [hstart] at hp
      injection hp with hv0
      refine ⟨acc.reverse, ?_, ?_, ?_⟩
      · simp [reconstructPath]
      · rw [manhattan_self, List.length_reverse]
        omega
      · rw [List.length_reverse]
        omega
    · have hcf := hex p v hp hps
      rcases hc : lookupA cf p with _ | c
      · rw [hc] at hcf
        cases hcf
      · obtain ⟨vp, vc, hvp, hvc, hle, hm1⟩ := hedge p c hc
        rw [hp] at hvp
        injection hvp with hvpv
        obtain ⟨res, hres, hlow, hhigh⟩ :=
          ihf vc c (acc ++ [c]) hvc (by omega)
        refine ⟨res, ?_, ?_, ?_⟩
        · simp only [reconstructPath]
          rw [if_neg hps, hc]
          exact hres
        · have htr := manhattan_triangle start c p
          rw [List.length_append, List.length_singleton] at hlow
          omega
        · rw [List.length_append, List.length_singleton] at hhigh
          omega

/-- The invariant holds for the initial search state built by
`a_star_path`. -/
theorem AStarInv_init {view : EnvironmentView} {keys : List DoorKeyType}
    {start goal : Position}
    (hs : start.x < view.terrain_grid.width ∧
      start.y < view.terrain_grid.height) :
    AStarInv view keys start goal
      { frontier := [{ priority := 0, position := start }], came_from := [],
        cost_so_far := [(start, 0)] } := by
  refine ⟨⟨?_, ?_, ?_, ?_, ?_, ?_, ?_, ?_, ?_⟩, ?_⟩
  · exact lookupA_singleton.mpr ⟨rfl, rfl⟩
  · intro p v hp
    obtain ⟨hpa, hv⟩ := lookupA_singleton.mp hp
    rw [hpa, manhattan_self]
    omega
  · intro p v hp
    obtain ⟨hpa, hv⟩ := lookupA_singleton.mp hp
    rw [hpa]
    exact hs
  · simp
  · intro p v hp
    obtain ⟨hpa, hv⟩ := lookupA_singleton.mp hp
    rw [hv]
    simp
  · intro e he
    rcases List.mem_cons.mp he with heq | ht
    · rw [heq]
      dsimp only
      rw [lookupA_singleton.mpr ⟨rfl, rfl⟩]
      rfl
    · cases ht
  · intro e he hegoal
    rcases List.mem_cons.mp he with heq | ht
    · subst heq
      dsimp only at hegoal
      refine ⟨0, ?_, ?_⟩
      · rw [← hegoal]
        exact lookupA_singleton.mpr ⟨rfl, rfl⟩
      · omega
    · cases ht
  · intro p c hp
    simp [lookupA] at hp
  · intro p v hp hpstart
    obtain ⟨hpa, hv⟩ := lookupA_singleton.mp hp
    exact absurd hpa hpstart
  · intro i hi hco
    obtain ⟨hgeo, hieq⟩ := lookupA_singleton.mp hco
    left
    refine ⟨{ priority := 0, position := start }, List.mem_cons_self _ _,
      hgeo.symm, ?_⟩
    dsimp only
    omega

/-- The loop measure of the initial search state is bounded by
`5 * cells² + 1`, under the fuel `5 * cells² + 2` passed by
`a_star_path`. -/
theorem measure_init (w h : Nat) (start : Position) :
    stateMeasure w h
        { frontier := [{ priority := 0, position := start }], came_from := [],
          cost_so_far := [(start, 0)] } ≤ 5 * (w * h) * (w * h) + 1 := by
  unfold stateMeasure
  dsimp only
  have hsum : ((gridPositions w h).map
      (costVal [(start, 0)] (w * h))).sum ≤ w * h * (w * h) := by
    have hb := List.sum_le_card_nsmul
      ((gridPositions w h).map (costVal [(start, 0)] (w * h))) (w * h) ?_
    · rw [List.length_map, gridPositions_length] at hb
      simpa [smul_eq_mul] using hb
    · intro x hx
      obtain ⟨p, _, hpx⟩ := List.mem_map.mp hx
      rw [← hpx]
      apply costVal_le
      intro q v hq
      obtain ⟨_, hv⟩ := lookupA_singleton.mp hq
      omega
  rw [List.length_cons, List.length_nil]
  have hmul : 5 * (w * h) * (w * h) = 5 * (w * h * (w * h)) := by ring
  omega

/-! ## Claim C5: A* optimality on an open grid -/

/-- **C5 (amended).** On a wall-free, door-free, agent-free rectangular
grid, for every in-bounds `start` and `goal`, `a_star_path` returns
`Some path`, and the returned vector holds exactly
`manhattan_distance(start, goal) + 1` positions — it starts at `start`,
ends at `goal`, and traverses exactly `manhattan_distance(start, goal)`
unit steps, so its step count is exactly optimal (the grid-size bound
`width * height < 2^64` reflects the source's `usize` arithmetic). -/
theorem C5_astar_exact_on_open_grid (view : EnvironmentView)
    (keys : List DoorKeyType) (start goal : Position) (hog : OpenGrid view)
    (hs : start.x < view.terrain_grid.width ∧
      start.y < view.terrain_grid.height)
    (hg : goal.x < view.terrain_grid.width ∧
      goal.y < view.terrain_grid.height)
    (hsize : view.terrain_grid.width * view.terrain_grid.height < usizeSize) :
    ∃ p, aStarPath start goal view keys = some p ∧
      p.length = manhattanDistance start goal + 1 := by
  have inv0 := @AStarInv_init view keys start goal hs
  have hmeas0 : stateMeasure view.terrain_grid.width view.terrain_grid.height
      { frontier := [{ priority := 0, position := start }], came_from := [],
        cost_so_far := [(start, 0)] } <
      5 * (view.terrain_grid.width * view.terrain_grid.height) *
        (view.terrain_grid.width * view.terrain_grid.height) + 2 := by
    have := measure_init view.terrain_grid.width view.terrain_grid.height start
    omega
  obtain ⟨st2, hloop, hpre, hcost⟩ :=
    aStarLoop_reaches hog hs hg hsize
      (5 * (view.terrain_grid.width * view.terrain_grid.height) *
        (view.terrain_grid.width * view.terrain_grid.height) + 2)
      { frontier := [{ priority := 0, position := start }], came_from := [],
        cost_so_far := [(start, 0)] } inv0 hmeas0
  have hdbound : manhattanDistance start goal + 1 ≤
      view.terrain_grid.width * view.terrain_grid.height := by
    have h1 := hpre.cost_bound goal (manhattanDistance start goal) hcost
    have h2 := assoc_length_le hpre.keys_nodup hpre.cost_inbounds
    omega
  obtain ⟨res, hres, hlow, hhigh⟩ :=
    reconstruct_exact hpre.cost_start hpre.cf_edge hpre.cf_exists
      (view.terrain_grid.width * view.terrain_grid.height + 2)
      (manhattanDistance start goal) goal [goal] hcost (by omega)
  refine ⟨res, ?_, ?_⟩
  · simp only [aStarPath]
    rw [hloop]
    exact hres
  · rw [List.length_singleton] at hlow hhigh
    omega

/-- **C5 (counterexample to the literal vector-length reading).** Read as
"the returned `Vec<Position>`'s `len()` equals the Manhattan distance", the
claim fails on every open grid: the vector also contains the start cell.
On the 1×1 open grid with `start = goal = (0,0)` the distance is `0` but
the returned vector is `[(0,0)]` of length `1`. -/
theorem C5_vector_length_exceeds_manhattan :
    aStarPath ⟨0, 0⟩ ⟨0, 0⟩ Examples.trivialView [] = some [⟨0, 0⟩] ∧
    manhattanDistance ⟨0, 0⟩ ⟨0, 0⟩ = 0 ∧
    ([(⟨0, 0⟩ : Position)] : List Position).length ≠ 0 := by
  refine ⟨by decide, by decide, by decide⟩

theorem C5_astar_exact_on_open_grid_witness :
    OpenGrid Examples.openView ∧
    (∃ p, aStarPath ⟨0, 0⟩ ⟨1, 1⟩ Examples.openView [] = some p ∧
      p.length = manhattanDistance ⟨0, 0⟩ ⟨1, 1⟩ + 1) :=
  ⟨⟨by unfold Grid.WF; decide, by decide, by decide⟩,
    C5_astar_exact_on_open_grid Examples.openView [] ⟨0, 0⟩ ⟨1, 1⟩
      ⟨by unfold Grid.WF; decide, by decide, by decide⟩ (by decide) (by decide)
      (by decide)⟩

end Claims

end AgentWorld
